import Mathlib

/-!
# oto: the cooperative byte pipe (`pipe_js.go`) and `waveOutClose` (`winmm_windows.go`)

The pipe is a byte slice shared by one producer goroutine (calling `Write`) and one
consumer goroutine (calling `Read`), synchronised by two unbuffered channels,
`provided` and `consumed`.  An unbuffered channel holds no value: a send completes
only together with a receive.  The goroutine that arrives second completes the
operation at once and keeps running; the goroutine that was parked becomes runnable
and continues when the scheduler resumes it.

The embedding is a labelled step function on a state that holds the shared slice
and the control point of each of the two goroutines.  One step is one maximal run
of a goroutine between two scheduling points (a call, or a resumption, up to the
next park or return), which is exactly the atomicity that the single threaded
runtime targeted by the `js` build tag provides.
-/

namespace Oto

/-! ## Data model -/

abbrev Byte := UInt8

/-- Go's `error` interface value; `none` is `nil`. -/
abbrev GoError := Option String

/-- `const pipeBufSize = 4096`. -/
def pipeBufSize : Nat := 4096

/-- The two channels made by `pipe()`: both are `make(chan struct{})`, unbuffered. -/
inductive Chan where
  | provided
  | consumed
  deriving DecidableEq, Repr

/-- Control point of the consumer goroutine with respect to `pipeReader.Read`. -/
inductive ReaderPC where
  /-- Not inside `Read`. -/
  | idle
  /-- Parked at line 44, `<-r.w.provided`; the argument is the caller's slice. -/
  | recvProvided (dst : List Byte)
  /-- The receive of line 44 has completed; runnable, next is the loop condition of line 43. -/
  | wokenProvided (dst : List Byte)
  /-- Parked at line 50, `r.w.consumed <- struct{}{}`, after lines 46 to 48 have run;
  `dst` is the caller's slice after the copy and `n` the value of the local `n`. -/
  | sendConsumed (dst : List Byte) (n : Nat)
  /-- The send of line 50 has completed; runnable, next is `return n, nil`. -/
  | sentConsumed (dst : List Byte) (n : Nat)
  deriving DecidableEq, Repr

/-- Control point of the producer goroutine with respect to `pipeWriter.Write`. -/
inductive WriterPC where
  /-- Not inside `Write`. -/
  | idle
  /-- Parked at line 67, `<-w.consumed`; the payload has not been appended. -/
  | recvConsumed (p : List Byte)
  /-- The receive of line 67 has completed; runnable, next is the loop condition of line 66. -/
  | wokenConsumed (p : List Byte)
  /-- Parked at line 72, `w.provided <- struct{}{}`; the payload has been appended. -/
  | sendProvided (p : List Byte)
  /-- The send of line 72 has completed; runnable, next is `return len(buf), nil`. -/
  | sentProvided (p : List Byte)
  deriving DecidableEq, Repr

/-- The `pipeWriter` struct together with the two goroutines using it.  The channels
are unbuffered, so their whole state is which goroutine is parked on them. -/
structure Pipe where
  buf : List Byte
  writer : WriterPC
  reader : ReaderPC
  deriving DecidableEq, Repr

/-- Which end a `Close` was called on. -/
inductive End where
  | readEnd
  | writeEnd
  deriving DecidableEq, Repr

/-- What a step does that is observable. -/
inductive Event where
  /-- A receive statement was executed on the channel (line 44 or line 67). -/
  | recv (c : Chan)
  /-- A send statement was executed on the channel (line 50 or line 72). -/
  | send (c : Chan)
  /-- Line 70, `w.buf = append(w.buf, buf...)`, was executed with this payload. -/
  | append (p : List Byte)
  /-- `Read` returned `(n, err)`; `dst` is the caller's slice at that moment. -/
  | readRet (dst : List Byte) (n : Nat) (err : GoError)
  /-- `Write` returned `(n, err)`. -/
  | writeRet (n : Nat) (err : GoError)
  /-- `Close` returned `err`. -/
  | closeRet (e : End) (err : GoError)
  deriving DecidableEq, Repr

/-- What the environment can do: the callers of the two ends, and the scheduler. -/
inductive Action where
  /-- The consumer goroutine calls `r.Read(dst)`. -/
  | callRead (dst : List Byte)
  /-- The producer goroutine calls `w.Write(p)`. -/
  | callWrite (p : List Byte)
  /-- The scheduler resumes the consumer goroutine, whose channel operation completed. -/
  | resumeReader
  /-- The scheduler resumes the producer goroutine, whose channel operation completed. -/
  | resumeWriter
  /-- Some goroutine calls `r.Close()`. -/
  | closeReader
  /-- Some goroutine calls `w.Close()`. -/
  | closeWriter
  deriving DecidableEq, Repr

/-! ## The operations -/

/-- `pipe()`: a nil slice and two fresh channels, nobody inside `Read` or `Write`. -/
def pipe : Pipe := { buf := [], writer := .idle, reader := .idle }

/-- Go's builtin `copy(dst, src)`: the number of bytes copied and `dst` afterwards. -/
def goCopy (dst src : List Byte) : Nat × List Byte :=
  let n := min dst.length src.length
  (n, src.take n ++ dst.drop n)

/-- Lines 46 to 52 of `pipeReader.Read`, run with the loop of line 43 already left. -/
def readBody (s : Pipe) (dst : List Byte) : Pipe × List Event :=
  let notify := decide (s.buf.length > pipeBufSize)
  let (n, dst1) := goCopy dst s.buf
  let s1 : Pipe := { s with buf := s.buf.drop n }
  if notify then
    match s1.writer with
    | .recvConsumed p =>
      -- a receiver is parked on `consumed`: the send completes at once
      ({ s1 with writer := .wokenConsumed p, reader := .idle },
        [.send .consumed, .readRet dst1 n none])
    | _ => ({ s1 with reader := .sendConsumed dst1 n }, [.send .consumed])
  else
    ({ s1 with reader := .idle }, [.readRet dst1 n none])

/-- `pipeReader.Read` from the loop condition of line 43 on.  The fuel bounds the
number of evaluations of the loop condition within one step (`readLoop_fuel` shows
that two are always enough: a receive completes at once only when the producer is
parked on its send, and then the producer is no longer parked). -/
def readLoop : Nat → Pipe → List Byte → Option (Pipe × List Event)
  | 0, _, _ => none
  | fuel + 1, s, dst =>
    if s.buf.length = 0 then
      match s.writer with
      | .sendProvided p =>
        -- a sender is parked on `provided`: the receive completes at once
        match readLoop fuel { s with writer := .sentProvided p } dst with
        | some (s1, evs) => some (s1, .recv .provided :: evs)
        | none => none
      | _ => some ({ s with reader := .recvProvided dst }, [.recv .provided])
    else
      some (readBody s dst)

/-- Lines 69 to 74 of `pipeWriter.Write`, run with the loop of line 66 already left. -/
def writeBody (s : Pipe) (p : List Byte) : Pipe × List Event :=
  let notify := decide (s.buf.length = 0)
  let s1 : Pipe := { s with buf := s.buf ++ p }
  if notify then
    match s1.reader with
    | .recvProvided dst =>
      -- a receiver is parked on `provided`: the send completes at once
      ({ s1 with reader := .wokenProvided dst, writer := .idle },
        [.append p, .send .provided, .writeRet p.length none])
    | _ => ({ s1 with writer := .sendProvided p }, [.append p, .send .provided])
  else
    ({ s1 with writer := .idle }, [.append p, .writeRet p.length none])

/-- `pipeWriter.Write` from the loop condition of line 66 on; fuel as in `readLoop`
(`writeLoop_fuel`). -/
def writeLoop : Nat → Pipe → List Byte → Option (Pipe × List Event)
  | 0, _, _ => none
  | fuel + 1, s, p =>
    if s.buf.length > pipeBufSize then
      match s.reader with
      | .sendConsumed dst n =>
        -- a sender is parked on `consumed`: the receive completes at once
        match writeLoop fuel { s with reader := .sentConsumed dst n } p with
        | some (s1, evs) => some (s1, .recv .consumed :: evs)
        | none => none
      | _ => some ({ s with writer := .recvConsumed p }, [.recv .consumed])
    else
      some (writeBody s p)

/-- `func (r *pipeReader) Read(buf []byte) (int, error)`, from its first line up to
the first park or the return. -/
def pipeReader.Read (s : Pipe) (dst : List Byte) : Option (Pipe × List Event) :=
  readLoop 2 s dst

/-- `func (w *pipeWriter) Write(buf []byte) (int, error)`, from its first line up to
the first park or the return. -/
def pipeWriter.Write (s : Pipe) (p : List Byte) : Option (Pipe × List Event) :=
  writeLoop 2 s p

/-- `func (r *pipeReader) Close() error`: `return nil`. -/
def pipeReader.Close (s : Pipe) : Pipe × List Event := (s, [.closeRet .readEnd none])

/-- `func (w *pipeWriter) Close() error`: `return nil`. -/
def pipeWriter.Close (s : Pipe) : Pipe × List Event := (s, [.closeRet .writeEnd none])

/-- One scheduling step.  `none` means that the action is not possible in the state
(a second `Read` while one is running, resuming a goroutine that is not runnable). -/
def step (s : Pipe) : Action → Option (Pipe × List Event)
  | .callRead dst =>
    match s.reader with
    | .idle => pipeReader.Read s dst
    | _ => none
  | .callWrite p =>
    match s.writer with
    | .idle => pipeWriter.Write s p
    | _ => none
  | .resumeReader =>
    match s.reader with
    | .wokenProvided dst => readLoop 2 s dst
    | .sentConsumed dst n => some ({ s with reader := .idle }, [.readRet dst n none])
    | _ => none
  | .resumeWriter =>
    match s.writer with
    | .wokenConsumed p => writeLoop 2 s p
    | .sentProvided p => some ({ s with writer := .idle }, [.writeRet p.length none])
    | _ => none
  | .closeReader => some (pipeReader.Close s)
  | .closeWriter => some (pipeWriter.Close s)

/-- A schedule: the steps one after the other, the events concatenated. -/
def run (s : Pipe) : List Action → Option (Pipe × List Event)
  | [] => some (s, [])
  | a :: as =>
    match step s a with
    | none => none
    | some (s1, e1) =>
      match run s1 as with
      | none => none
      | some (s2, e2) => some (s2, e1 ++ e2)

/-! ## Observations on schedules and traces -/

/-- The bytes handed to the caller by the `Read` calls that returned, in order. -/
def readBytes : List Event → List Byte
  | [] => []
  | .readRet dst n _ :: evs => dst.take n ++ readBytes evs
  | _ :: evs => readBytes evs

/-- The payloads of the `Write` calls of a schedule, in order. -/
def writtenPayloads : List Action → List Byte
  | [] => []
  | .callWrite p :: as => p ++ writtenPayloads as
  | _ :: as => writtenPayloads as

/-- The payload of a `Write` that is still waiting in the loop of line 66. -/
def unappended : WriterPC → List Byte
  | .recvConsumed p => p
  | .wokenConsumed p => p
  | _ => []

/-- The bytes a `Read` has copied out at line 47 and not yet returned. -/
def unreturned : ReaderPC → List Byte
  | .sendConsumed dst n => dst.take n
  | .sentConsumed dst n => dst.take n
  | _ => []

def Action.isCallRead : Action → Bool
  | .callRead _ => true
  | _ => false

def Action.isCallWrite : Action → Bool
  | .callWrite _ => true
  | _ => false

def Action.isClose : Action → Bool
  | .closeReader => true
  | .closeWriter => true
  | _ => false

def Event.isAppend : Event → Bool
  | .append _ => true
  | _ => false

def Event.isCloseRet : Event → Bool
  | .closeRet _ _ => true
  | _ => false

/-! ## `waveOutClose` -/

/-- `type mmresult uint`.  The native call hands the code back as a `uintptr`, which
has the width of `uint`, so the conversion `mmresult(r)` keeps the value. -/
abbrev mmresult := Nat

def mmsyserrNoerror : mmresult := 0
def mmsyserrError : mmresult := 1
def mmsyserrBaddeviceid : mmresult := 2
def mmsyserrAllocated : mmresult := 4
def mmsyserrInvalidhandle : mmresult := 5
def mmsyserrNodriver : mmresult := 6
def mmsyserrNomem : mmresult := 7
def waveerrBadformat : mmresult := 32
def waveerrStillplaying : mmresult := 33
def waveerrUnprepared : mmresult := 34
def waveerrSync : mmresult := 35

/-- `type winmmError struct`; `errno` is a `windows.Errno`, a `uintptr`.  A field that
a composite literal leaves out is zero. -/
structure winmmError where
  fname : String
  errno : Nat
  mmresult : mmresult
  deriving DecidableEq, Repr

/-- `func (m mmresult) String() string`. -/
def mmresult.String (m : mmresult) : String :=
  if m = mmsyserrNoerror then "MMSYSERR_NOERROR"
  else if m = mmsyserrError then "MMSYSERR_ERROR"
  else if m = mmsyserrBaddeviceid then "MMSYSERR_BADDEVICEID"
  else if m = mmsyserrAllocated then "MMSYSERR_ALLOCATED"
  else if m = mmsyserrInvalidhandle then "MMSYSERR_INVALIDHANDLE"
  else if m = mmsyserrNodriver then "MMSYSERR_NODRIVER"
  else if m = mmsyserrNomem then "MMSYSERR_NOMEM"
  else if m = waveerrBadformat then "WAVEERR_BADFORMAT"
  else if m = waveerrStillplaying then "WAVEERR_STILLPLAYING"
  else if m = waveerrUnprepared then "WAVEERR_UNPREPARED"
  else if m = waveerrSync then "WAVEERR_SYNC"
  else "MMRESULT (" ++ toString m ++ ")"

/-- `func (e *winmmError) Error() string`. -/
def winmmError.Error (e : winmmError) : String :=
  if e.errno ≠ 0 then
    "winmm error at " ++ e.fname ++ ": Errno: " ++ toString e.errno
  else if e.mmresult ≠ mmsyserrNoerror then
    "winmm error at " ++ e.fname ++ ": " ++ mmresult.String e.mmresult
  else
    "winmm error at " ++ e.fname

/-- `waveOutClose`, as a function of what `procWaveOutClose.Call(hwo)` returned:
the result code `r` and the errno `e`. -/
def waveOutClose (r : Nat) (e : Nat) : Option winmmError :=
  if e ≠ 0 then
    some { fname := "waveOutClose", errno := e, mmresult := 0 }
  else if r ≠ mmsyserrNoerror ∧ r ≠ waveerrStillplaying then
    some { fname := "waveOutClose", errno := 0, mmresult := r }
  else
    none

/-! ## Invariants used in the proofs -/

/-- Everything that is in the custody of the pipe: copied out by a `Read` that has not
returned yet, buffered, or held by a `Write` that has not appended yet. -/
def inFlight (s : Pipe) : List Byte :=
  unreturned s.reader ++ s.buf ++ unappended s.writer

/-- The consumer is outside `Read`, or inside a `Read` whose destination has capacity
`M` and whose local `n`, once set, is between 1 and `M`. -/
def ReadPending (M : Nat) : ReaderPC → Prop
  | .idle => True
  | .recvProvided d => d.length = M
  | .wokenProvided d => d.length = M
  | .sendConsumed d n => d.length = M ∧ 1 ≤ n ∧ n ≤ M
  | .sentConsumed d n => d.length = M ∧ 1 ≤ n ∧ n ≤ M

/-- The producer is outside `Write`, or inside a `Write` of payload `p` that has
already appended. -/
def WriteAppended (p : List Byte) : WriterPC → Prop
  | .idle => True
  | .sendProvided q => q = p
  | .sentProvided q => q = p
  | .recvConsumed _ => False
  | .wokenConsumed _ => False

/-- The consumer is outside `Read`, or inside a `Read` that has already drained, with
the caller's slice now `d` and the local `n` equal to `n`. -/
def ReadDrained (d : List Byte) (n : Nat) : ReaderPC → Prop
  | .idle => True
  | .sendConsumed d1 n1 => d1 = d ∧ n1 = n
  | .sentConsumed d1 n1 => d1 = d ∧ n1 = n
  | .recvProvided _ => False
  | .wokenProvided _ => False

/-- How many sends on `consumed` the `Read` call in progress can still execute: one
while it has not left the loop of line 43, none afterwards. -/
def sendsAhead : ReaderPC → Nat
  | .recvProvided _ => 1
  | .wokenProvided _ => 1
  | _ => 0

/-- The producer is outside `Write`, or inside a `Write` of payload `p`. -/
def WriteOf (p : List Byte) : WriterPC → Prop
  | .idle => True
  | .recvConsumed q => q = p
  | .wokenConsumed q => q = p
  | .sendProvided q => q = p
  | .sentProvided q => q = p

/-! ## The loops leave within two evaluations of their condition -/

theorem readLoop_two (s : Pipe) (dst : List Byte) :
    readLoop 2 s dst =
      if s.buf.length = 0 then
        match s.writer with
        | .sendProvided p =>
          some ({ s with writer := .sentProvided p, reader := .recvProvided dst },
            [.recv .provided, .recv .provided])
        | _ => some ({ s with reader := .recvProvided dst }, [.recv .provided])
      else some (readBody s dst) := by
  by_cases h : s.buf.length = 0
  · cases hw : s.writer <;> simp [readLoop, h, hw]
  · simp [readLoop, h]

theorem readLoop_fuel (k : Nat) (s : Pipe) (dst : List Byte) :
    readLoop (k + 2) s dst = readLoop 2 s dst := by
  by_cases h : s.buf.length = 0
  · cases hw : s.writer <;> simp [readLoop, h, hw]
  · simp [readLoop, h]

theorem writeLoop_two (s : Pipe) (p : List Byte) :
    writeLoop 2 s p =
      if s.buf.length > pipeBufSize then
        match s.reader with
        | .sendConsumed dst n =>
          some ({ s with reader := .sentConsumed dst n, writer := .recvConsumed p },
            [.recv .consumed, .recv .consumed])
        | _ => some ({ s with writer := .recvConsumed p }, [.recv .consumed])
      else some (writeBody s p) := by
  by_cases h : s.buf.length > pipeBufSize
  · cases hr : s.reader <;> simp [writeLoop, h, hr]
  · simp [writeLoop, h]

theorem writeLoop_fuel (k : Nat) (s : Pipe) (p : List Byte) :
    writeLoop (k + 2) s p = writeLoop 2 s p := by
  by_cases h : s.buf.length > pipeBufSize
  · cases hr : s.reader <;> simp [writeLoop, h, hr]
  · simp [writeLoop, h]

/-! ## The straight-line parts, case by case -/

theorem readBody_low (s : Pipe) (dst : List Byte) (h : s.buf.length ≤ pipeBufSize) :
    readBody s dst =
      ({ s with buf := s.buf.drop (goCopy dst s.buf).1, reader := .idle },
        [.readRet (goCopy dst s.buf).2 (goCopy dst s.buf).1 none]) := by
  have h1 : ¬ (s.buf.length > pipeBufSize) := by omega
  simp [readBody, h1]

theorem readBody_high_recv (s : Pipe) (dst p : List Byte) (h : pipeBufSize < s.buf.length)
    (hw : s.writer = .recvConsumed p) :
    readBody s dst =
      ({ s with buf := s.buf.drop (goCopy dst s.buf).1, writer := .wokenConsumed p,
                reader := .idle },
        [.send .consumed, .readRet (goCopy dst s.buf).2 (goCopy dst s.buf).1 none]) := by
  simp [readBody, h, hw]

theorem readBody_high_park (s : Pipe) (dst : List Byte) (h : pipeBufSize < s.buf.length)
    (hw : ∀ p, s.writer ≠ .recvConsumed p) :
    readBody s dst =
      ({ s with buf := s.buf.drop (goCopy dst s.buf).1,
                reader := .sendConsumed (goCopy dst s.buf).2 (goCopy dst s.buf).1 },
        [.send .consumed]) := by
  cases hw1 : s.writer <;> simp_all [readBody]

theorem writeBody_nonempty (s : Pipe) (p : List Byte) (h : s.buf.length ≠ 0) :
    writeBody s p =
      ({ s with buf := s.buf ++ p, writer := .idle }, [.append p, .writeRet p.length none]) := by
  simp [writeBody, h]

theorem writeBody_empty_recv (s : Pipe) (p dst : List Byte) (h : s.buf.length = 0)
    (hr : s.reader = .recvProvided dst) :
    writeBody s p =
      ({ s with buf := s.buf ++ p, reader := .wokenProvided dst, writer := .idle },
        [.append p, .send .provided, .writeRet p.length none]) := by
  simp [writeBody, h, hr]

theorem writeBody_empty_park (s : Pipe) (p : List Byte) (h : s.buf.length = 0)
    (hr : ∀ dst, s.reader ≠ .recvProvided dst) :
    writeBody s p =
      ({ s with buf := s.buf ++ p, writer := .sendProvided p }, [.append p, .send .provided]) := by
  cases hr1 : s.reader <;> simp_all [writeBody]

theorem goCopy_fst (dst src : List Byte) : (goCopy dst src).1 = min dst.length src.length := rfl

theorem goCopy_snd (dst src : List Byte) :
    (goCopy dst src).2 = src.take (goCopy dst src).1 ++ dst.drop (goCopy dst src).1 := rfl

theorem goCopy_take (dst src : List Byte) :
    (goCopy dst src).2.take (goCopy dst src).1 = src.take (goCopy dst src).1 := by
  rw [goCopy_snd, List.take_append_of_le_length (by simp [goCopy_fst])]
  simp [goCopy_fst]

theorem goCopy_drop (dst src : List Byte) :
    (goCopy dst src).2.drop (goCopy dst src).1 = dst.drop (goCopy dst src).1 := by
  rw [goCopy_snd]
  have h : (List.take (goCopy dst src).1 src).length = (goCopy dst src).1 := by
    simp [goCopy_fst]
  exact List.drop_left' h

theorem goCopy_length (dst src : List Byte) : (goCopy dst src).2.length = dst.length := by
  rw [goCopy_snd]
  simp [goCopy_fst]

/-- The five ways the body of `Read` can go from the loop condition of line 43. -/
theorem readLoop_cases (s s1 : Pipe) (dst : List Byte) (evs : List Event)
    (h : readLoop 2 s dst = some (s1, evs)) :
    (s.buf.length = 0 ∧ ∃ p, s.writer = .sendProvided p ∧
        s1 = { s with writer := .sentProvided p, reader := .recvProvided dst } ∧
        evs = [.recv .provided, .recv .provided]) ∨
    (s.buf.length = 0 ∧ (∀ p, s.writer ≠ .sendProvided p) ∧
        s1 = { s with reader := .recvProvided dst } ∧ evs = [.recv .provided]) ∨
    (s.buf.length ≠ 0 ∧ s.buf.length ≤ pipeBufSize ∧
        s1 = { s with buf := s.buf.drop (goCopy dst s.buf).1, reader := .idle } ∧
        evs = [.readRet (goCopy dst s.buf).2 (goCopy dst s.buf).1 none]) ∨
    (pipeBufSize < s.buf.length ∧ ∃ p, s.writer = .recvConsumed p ∧
        s1 = { s with buf := s.buf.drop (goCopy dst s.buf).1, writer := .wokenConsumed p,
                      reader := .idle } ∧
        evs = [.send .consumed, .readRet (goCopy dst s.buf).2 (goCopy dst s.buf).1 none]) ∨
    (pipeBufSize < s.buf.length ∧ (∀ p, s.writer ≠ .recvConsumed p) ∧
        s1 = { s with buf := s.buf.drop (goCopy dst s.buf).1,
                      reader := .sendConsumed (goCopy dst s.buf).2 (goCopy dst s.buf).1 } ∧
        evs = [.send .consumed]) := by
  rw [readLoop_two] at h
  by_cases h0 : s.buf.length = 0
  · rw [if_pos h0] at h
    by_cases hw : ∃ p, s.writer = .sendProvided p
    · obtain ⟨p, hp⟩ := hw
      left
      rw [hp] at h
      simp only [Option.some.injEq, Prod.mk.injEq] at h
      exact ⟨h0, p, hp, h.1.symm, h.2.symm⟩
    · right; left
      have hw1 : ∀ p, s.writer ≠ .sendProvided p := fun p hp => hw ⟨p, hp⟩
      cases hw2 : s.writer <;> simp_all
  · rw [if_neg h0] at h
    simp only [Option.some.injEq] at h
    by_cases hn : s.buf.length ≤ pipeBufSize
    · right; right; left
      rw [readBody_low s dst hn] at h
      simp only [Prod.mk.injEq] at h
      exact ⟨h0, hn, h.1.symm, h.2.symm⟩
    · have hn1 : pipeBufSize < s.buf.length := by omega
      by_cases hw : ∃ p, s.writer = .recvConsumed p
      · obtain ⟨p, hp⟩ := hw
        right; right; right; left
        rw [readBody_high_recv s dst p hn1 hp] at h
        simp only [Prod.mk.injEq] at h
        exact ⟨hn1, p, hp, h.1.symm, h.2.symm⟩
      · right; right; right; right
        have hw1 : ∀ p, s.writer ≠ .recvConsumed p := fun p hp => hw ⟨p, hp⟩
        rw [readBody_high_park s dst hn1 hw1] at h
        simp only [Prod.mk.injEq] at h
        exact ⟨hn1, hw1, h.1.symm, h.2.symm⟩

/-- The five ways the body of `Write` can go from the loop condition of line 66. -/
theorem writeLoop_cases (s s1 : Pipe) (p : List Byte) (evs : List Event)
    (h : writeLoop 2 s p = some (s1, evs)) :
    (pipeBufSize < s.buf.length ∧ ∃ dst n, s.reader = .sendConsumed dst n ∧
        s1 = { s with reader := .sentConsumed dst n, writer := .recvConsumed p } ∧
        evs = [.recv .consumed, .recv .consumed]) ∨
    (pipeBufSize < s.buf.length ∧ (∀ dst n, s.reader ≠ .sendConsumed dst n) ∧
        s1 = { s with writer := .recvConsumed p } ∧ evs = [.recv .consumed]) ∨
    (s.buf.length ≤ pipeBufSize ∧ s.buf.length ≠ 0 ∧
        s1 = { s with buf := s.buf ++ p, writer := .idle } ∧
        evs = [.append p, .writeRet p.length none]) ∨
    (s.buf.length = 0 ∧ ∃ dst, s.reader = .recvProvided dst ∧
        s1 = { s with buf := s.buf ++ p, reader := .wokenProvided dst, writer := .idle } ∧
        evs = [.append p, .send .provided, .writeRet p.length none]) ∨
    (s.buf.length = 0 ∧ (∀ dst, s.reader ≠ .recvProvided dst) ∧
        s1 = { s with buf := s.buf ++ p, writer := .sendProvided p } ∧
        evs = [.append p, .send .provided]) := by
  rw [writeLoop_two] at h
  by_cases hn : s.buf.length > pipeBufSize
  · rw [if_pos hn] at h
    by_cases hr : ∃ dst n, s.reader = .sendConsumed dst n
    · obtain ⟨dst, n, hd⟩ := hr
      left
      rw [hd] at h
      simp only [Option.some.injEq, Prod.mk.injEq] at h
      exact ⟨hn, dst, n, hd, h.1.symm, h.2.symm⟩
    · right; left
      have hr1 : ∀ dst n, s.reader ≠ .sendConsumed dst n := fun dst n hd => hr ⟨dst, n, hd⟩
      cases hr2 : s.reader <;> simp_all
  · rw [if_neg hn] at h
    simp only [Option.some.injEq] at h
    have hn1 : s.buf.length ≤ pipeBufSize := by omega
    by_cases h0 : s.buf.length = 0
    · by_cases hr : ∃ dst, s.reader = .recvProvided dst
      · obtain ⟨dst, hd⟩ := hr
        right; right; right; left
        rw [writeBody_empty_recv s p dst h0 hd] at h
        simp only [Prod.mk.injEq] at h
        exact ⟨h0, dst, hd, h.1.symm, h.2.symm⟩
      · right; right; right; right
        have hr1 : ∀ dst, s.reader ≠ .recvProvided dst := fun dst hd => hr ⟨dst, hd⟩
        rw [writeBody_empty_park s p h0 hr1] at h
        simp only [Prod.mk.injEq] at h
        exact ⟨h0, hr1, h.1.symm, h.2.symm⟩
    · right; right; left
      rw [writeBody_nonempty s p h0] at h
      simp only [Prod.mk.injEq] at h
      exact ⟨hn1, h0, h.1.symm, h.2.symm⟩

/-- The steps of a schedule, by the goroutine that takes them. -/
theorem step_cases (s s1 : Pipe) (a : Action) (evs : List Event)
    (h : step s a = some (s1, evs)) :
    (∃ dst, (a = .callRead dst ∧ s.reader = .idle ∨
             a = .resumeReader ∧ s.reader = .wokenProvided dst) ∧
        readLoop 2 s dst = some (s1, evs)) ∨
    (∃ dst n, a = .resumeReader ∧ s.reader = .sentConsumed dst n ∧
        s1 = { s with reader := .idle } ∧ evs = [.readRet dst n none]) ∨
    (∃ p, (a = .callWrite p ∧ s.writer = .idle ∨
           a = .resumeWriter ∧ s.writer = .wokenConsumed p) ∧
        writeLoop 2 s p = some (s1, evs)) ∨
    (∃ p, a = .resumeWriter ∧ s.writer = .sentProvided p ∧
        s1 = { s with writer := .idle } ∧ evs = [.writeRet p.length none]) ∨
    (a = .closeReader ∧ s1 = s ∧ evs = [.closeRet .readEnd none]) ∨
    (a = .closeWriter ∧ s1 = s ∧ evs = [.closeRet .writeEnd none]) := by
  cases a with
  | callRead dst =>
    cases hr : s.reader <;> simp [step, pipeReader.Read, hr] at h
    exact Or.inl ⟨dst, Or.inl ⟨rfl, rfl⟩, h⟩
  | callWrite p =>
    cases hw : s.writer <;> simp [step, pipeWriter.Write, hw] at h
    exact Or.inr (Or.inr (Or.inl ⟨p, Or.inl ⟨rfl, rfl⟩, h⟩))
  | resumeReader =>
    cases hr : s.reader <;> simp [step, pipeReader.Read, hr] at h
    · exact Or.inl ⟨_, Or.inr ⟨rfl, rfl⟩, h⟩
    · exact Or.inr (Or.inl ⟨_, _, rfl, rfl, h.1.symm, h.2.symm⟩)
  | resumeWriter =>
    cases hw : s.writer <;> simp [step, pipeWriter.Write, hw] at h
    · exact Or.inr (Or.inr (Or.inl ⟨_, Or.inr ⟨rfl, rfl⟩, h⟩))
    · exact Or.inr (Or.inr (Or.inr (Or.inl ⟨_, rfl, rfl, h.1.symm, h.2.symm⟩)))
  | closeReader =>
    simp [step, pipeReader.Close, pipeWriter.Close] at h
    exact Or.inr (Or.inr (Or.inr (Or.inr (Or.inl ⟨rfl, h.1.symm, h.2.symm⟩))))
  | closeWriter =>
    simp [step, pipeReader.Close, pipeWriter.Close] at h
    exact Or.inr (Or.inr (Or.inr (Or.inr (Or.inr ⟨rfl, h.1.symm, h.2.symm⟩))))

/-! ## Conservation of bytes -/

@[simp] theorem unreturned_idle : unreturned .idle = [] := rfl
@[simp] theorem unreturned_recvProvided (d : List Byte) : unreturned (.recvProvided d) = [] := rfl
@[simp] theorem unreturned_wokenProvided (d : List Byte) : unreturned (.wokenProvided d) = [] := rfl
@[simp] theorem unreturned_sendConsumed (d : List Byte) (n : Nat) :
    unreturned (.sendConsumed d n) = d.take n := rfl
@[simp] theorem unreturned_sentConsumed (d : List Byte) (n : Nat) :
    unreturned (.sentConsumed d n) = d.take n := rfl
@[simp] theorem unappended_idle : unappended .idle = [] := rfl
@[simp] theorem unappended_recvConsumed (p : List Byte) : unappended (.recvConsumed p) = p := rfl
@[simp] theorem unappended_wokenConsumed (p : List Byte) : unappended (.wokenConsumed p) = p := rfl
@[simp] theorem unappended_sendProvided (p : List Byte) : unappended (.sendProvided p) = [] := rfl
@[simp] theorem unappended_sentProvided (p : List Byte) : unappended (.sentProvided p) = [] := rfl

theorem take_append_drop_append (n : Nat) (l x : List Byte) :
    l.take n ++ (l.drop n ++ x) = l ++ x := by
  rw [← List.append_assoc, List.take_append_drop]

theorem readLoop_conserve (s s1 : Pipe) (dst : List Byte) (evs : List Event)
    (hr : unreturned s.reader = []) (h : readLoop 2 s dst = some (s1, evs)) :
    readBytes evs ++ inFlight s1 = inFlight s := by
  rcases readLoop_cases s s1 dst evs h with
    ⟨_, p, hp, rfl, rfl⟩ | ⟨_, _, rfl, rfl⟩ | ⟨_, _, rfl, rfl⟩ | ⟨_, p, hp, rfl, rfl⟩ |
    ⟨_, _, rfl, rfl⟩ <;>
  simp [readBytes, inFlight, hr, goCopy_take, take_append_drop_append, *]

theorem writeLoop_conserve (s s1 : Pipe) (p : List Byte) (evs : List Event)
    (h : writeLoop 2 s p = some (s1, evs)) :
    readBytes evs ++ inFlight s1 = unreturned s.reader ++ s.buf ++ p := by
  rcases writeLoop_cases s s1 p evs h with
    ⟨_, dst, n, hd, rfl, rfl⟩ | ⟨_, _, rfl, rfl⟩ | ⟨_, _, rfl, rfl⟩ | ⟨_, dst, hd, rfl, rfl⟩ |
    ⟨_, _, rfl, rfl⟩ <;>
  simp [readBytes, inFlight, *]

/-- One step neither loses, duplicates nor reorders bytes. -/
theorem step_conserve (s s1 : Pipe) (a : Action) (evs : List Event)
    (h : step s a = some (s1, evs)) :
    readBytes evs ++ inFlight s1 = inFlight s ++ writtenPayloads [a] := by
  rcases step_cases s s1 a evs h with
    ⟨dst, hc, hl⟩ | ⟨dst, n, rfl, hr, rfl, rfl⟩ | ⟨p, hc, hl⟩ | ⟨p, rfl, hw, rfl, rfl⟩ |
    ⟨rfl, rfl, rfl⟩ | ⟨rfl, rfl, rfl⟩
  · have hr : unreturned s.reader = [] := by
      rcases hc with ⟨_, hr⟩ | ⟨_, hr⟩ <;> simp [hr]
    rw [readLoop_conserve s s1 dst evs hr hl]
    rcases hc with ⟨rfl, _⟩ | ⟨rfl, _⟩ <;> simp [writtenPayloads]
  · simp [readBytes, inFlight, writtenPayloads, hr]
  · rw [writeLoop_conserve s s1 p evs hl]
    rcases hc with ⟨rfl, hw⟩ | ⟨rfl, hw⟩ <;>
      simp [inFlight, writtenPayloads, hw]
  · simp [readBytes, inFlight, writtenPayloads, hw]
  · simp [readBytes, inFlight, writtenPayloads]
  · simp [readBytes, inFlight, writtenPayloads]

theorem readBytes_append (e1 e2 : List Event) :
    readBytes (e1 ++ e2) = readBytes e1 ++ readBytes e2 := by
  induction e1 with
  | nil => rfl
  | cons e es ih => cases e <;> simp [readBytes, ih]

theorem writtenPayloads_cons (a : Action) (as : List Action) :
    writtenPayloads (a :: as) = writtenPayloads [a] ++ writtenPayloads as := by
  cases a <;> simp [writtenPayloads]

theorem run_cons (s s2 : Pipe) (a : Action) (as : List Action) (evs : List Event)
    (h : run s (a :: as) = some (s2, evs)) :
    ∃ s1 e1 e2, step s a = some (s1, e1) ∧ run s1 as = some (s2, e2) ∧ evs = e1 ++ e2 := by
  simp only [run] at h
  cases h1 : step s a with
  | none => simp [h1] at h
  | some r1 =>
    obtain ⟨s1, e1⟩ := r1
    cases h2 : run s1 as with
    | none => simp [h1, h2] at h
    | some r2 =>
      obtain ⟨s2a, e2⟩ := r2
      simp [h1, h2] at h
      exact ⟨s1, e1, e2, rfl, by rw [h2, h.1], h.2.symm⟩

/-- Along a whole schedule: what was read, followed by what is still inside, is what
was inside at the start followed by what was written. -/
theorem run_conserve (as : List Action) (s s1 : Pipe) (evs : List Event)
    (h : run s as = some (s1, evs)) :
    readBytes evs ++ inFlight s1 = inFlight s ++ writtenPayloads as := by
  induction as generalizing s evs with
  | nil =>
    simp [run] at h
    obtain ⟨rfl, rfl⟩ := h
    simp [readBytes, writtenPayloads]
  | cons a as ih =>
    obtain ⟨sm, e1, e2, hs, hrun, rfl⟩ := run_cons s s1 a as evs h
    have h1 := step_conserve s sm a e1 hs
    have h2 := ih sm e2 hrun
    rw [readBytes_append, writtenPayloads_cons, List.append_assoc, h2, ← List.append_assoc, h1,
      List.append_assoc]

/-- C1, amended. FIFO preservation: on a pipe made by `pipe()`, under every schedule of
`Write` calls, `Read` calls and resumptions after which the buffer is empty, every
`Write` has appended its payload (none is still waiting in the loop of line 66) and
every `Read` that copied bytes out has returned (none is waiting at line 50), the bytes
returned by the `Read`s, concatenated in order, are exactly the payloads of the
`Write`s, concatenated in order, whatever the capacities of the `Read`s were. -/
theorem fifo_preservation (as : List Action) (s : Pipe) (evs : List Event)
    (h : run pipe as = some (s, evs))
    (hbuf : s.buf = []) (hw : unappended s.writer = []) (hr : unreturned s.reader = []) :
    readBytes evs = writtenPayloads as := by
  have h1 := run_conserve as pipe s evs h
  simpa [inFlight, hbuf, hw, hr, pipe] using h1

theorem fifo_preservation_witness :
    run pipe [.callRead [0, 0], .callWrite [1, 2, 3], .resumeReader, .callWrite [4],
        .callRead [0, 0, 0]] =
      some ({ buf := [], writer := .idle, reader := .idle },
        [.recv .provided, .append [1, 2, 3], .send .provided, .writeRet 3 none,
          .readRet [1, 2] 2 none, .append [4], .writeRet 1 none,
          .readRet [3, 4, 0] 2 none]) ∧
    readBytes [.recv .provided, .append [1, 2, 3], .send .provided, .writeRet 3 none,
        .readRet [1, 2] 2 none, .append [4], .writeRet 1 none, .readRet [3, 4, 0] 2 none] =
      writtenPayloads [.callRead [0, 0], .callWrite [1, 2, 3], .resumeReader, .callWrite [4],
        .callRead [0, 0, 0]] :=
  ⟨by decide,
    fifo_preservation
      [.callRead [0, 0], .callWrite [1, 2, 3], .resumeReader, .callWrite [4],
        .callRead [0, 0, 0]]
      { buf := [], writer := .idle, reader := .idle } _ (by decide) rfl rfl rfl⟩

/-! ## What a `Read` returns -/

theorem readLoop_pending (s s1 : Pipe) (dst : List Byte) (evs : List Event)
    (hM : 0 < dst.length) (h : readLoop 2 s dst = some (s1, evs)) :
    ReadPending dst.length s1.reader ∧
      ∀ d n e, Event.readRet d n e ∈ evs → d.length = dst.length ∧ 1 ≤ n ∧ n ≤ dst.length ∧ e = none := by
  have hlen := goCopy_length dst s.buf
  have hn : s.buf.length ≠ 0 → 1 ≤ (goCopy dst s.buf).1 ∧ (goCopy dst s.buf).1 ≤ dst.length := by
    intro h0
    rw [goCopy_fst]
    omega
  rcases readLoop_cases s s1 dst evs h with
    ⟨_, p, hp, rfl, rfl⟩ | ⟨_, _, rfl, rfl⟩ | ⟨h0, _, rfl, rfl⟩ | ⟨h0, p, hp, rfl, rfl⟩ |
    ⟨h0, _, rfl, rfl⟩
  · simp [ReadPending]
  · simp [ReadPending]
  · have := hn h0
    simp only [ReadPending, List.mem_singleton, Event.readRet.injEq, true_and]
    rintro d n e ⟨rfl, rfl, rfl⟩
    exact ⟨hlen, this.1, this.2, rfl⟩
  · have := hn (by omega)
    simp only [ReadPending, List.mem_cons, List.mem_singleton, Event.readRet.injEq, true_and,
      reduceCtorEq, false_or, List.not_mem_nil, or_false]
    rintro d n e ⟨rfl, rfl, rfl⟩
    exact ⟨hlen, this.1, this.2, rfl⟩
  · have := hn (by omega)
    simp [ReadPending, hlen, this]

theorem writeLoop_pending (M : Nat) (s s1 : Pipe) (p : List Byte) (evs : List Event)
    (hinv : ReadPending M s.reader) (h : writeLoop 2 s p = some (s1, evs)) :
    ReadPending M s1.reader ∧ ∀ d n e, Event.readRet d n e ∉ evs := by
  rcases writeLoop_cases s s1 p evs h with
    ⟨_, dst, n, hd, rfl, rfl⟩ | ⟨_, _, rfl, rfl⟩ | ⟨_, _, rfl, rfl⟩ | ⟨_, dst, hd, rfl, rfl⟩ |
    ⟨_, _, rfl, rfl⟩
  · rw [hd] at hinv
    simpa [ReadPending] using hinv
  · simpa using hinv
  · simpa using hinv
  · rw [hd] at hinv
    simpa [ReadPending] using hinv
  · simpa using hinv

theorem step_pending (M : Nat) (s s1 : Pipe) (a : Action) (evs : List Event) (hM : 0 < M)
    (hinv : ReadPending M s.reader) (ha : a.isCallRead = false)
    (h : step s a = some (s1, evs)) :
    ReadPending M s1.reader ∧
      ∀ d n e, Event.readRet d n e ∈ evs → d.length = M ∧ 1 ≤ n ∧ n ≤ M ∧ e = none := by
  rcases step_cases s s1 a evs h with
    ⟨dst, hc, hl⟩ | ⟨dst, n, rfl, hr, rfl, rfl⟩ | ⟨p, hc, hl⟩ | ⟨p, rfl, hw, rfl, rfl⟩ |
    ⟨rfl, rfl, rfl⟩ | ⟨rfl, rfl, rfl⟩
  · rcases hc with ⟨rfl, _⟩ | ⟨rfl, hr⟩
    · simp [Action.isCallRead] at ha
    · rw [hr] at hinv
      simp only [ReadPending] at hinv
      subst hinv
      exact readLoop_pending s s1 dst evs hM hl
  · rw [hr] at hinv
    simp only [ReadPending] at hinv
    simp only [ReadPending, List.mem_singleton, Event.readRet.injEq, true_and]
    rintro d m e ⟨rfl, rfl, rfl⟩
    exact ⟨hinv.1, hinv.2.1, hinv.2.2, rfl⟩
  · obtain ⟨h1, h2⟩ := writeLoop_pending M s s1 p evs hinv hl
    exact ⟨h1, fun d n e hmem => absurd hmem (h2 d n e)⟩
  · simpa using hinv
  · simpa using hinv
  · simpa using hinv

theorem run_pending (M : Nat) (hM : 0 < M) (as : List Action) (s s1 : Pipe) (evs : List Event)
    (hinv : ReadPending M s.reader) (hno : ∀ a ∈ as, a.isCallRead = false)
    (h : run s as = some (s1, evs)) :
    ∀ d n e, Event.readRet d n e ∈ evs → d.length = M ∧ 1 ≤ n ∧ n ≤ M ∧ e = none := by
  induction as generalizing s evs with
  | nil =>
    simp [run] at h
    obtain ⟨rfl, rfl⟩ := h
    simp
  | cons a as ih =>
    obtain ⟨sm, e1, e2, hs, hrun, rfl⟩ := run_cons s s1 a as evs h
    obtain ⟨hi, he⟩ := step_pending M s sm a e1 hM hinv (hno a (by simp)) hs
    have h2 := ih sm e2 hi (fun b hb => hno b (by simp [hb])) hrun
    intro d n e hmem
    rcases List.mem_append.mp hmem with hm | hm
    · exact he d n e hm
    · exact h2 d n e hm

/-- C2. No spurious empty reads: in every pipe state in which the consumer is not
already inside `Read`, for a destination of capacity `M > 0`, under every schedule that
follows the call, a return of that `Read` call is `(n, nil)` with `1 ≤ n ≤ M` (and the
caller's slice keeps its length). -/
theorem read_never_returns_zero (s : Pipe) (dst : List Byte) (as : List Action) (s1 : Pipe)
    (evs : List Event) (hidle : s.reader = .idle) (hM : 0 < dst.length)
    (hno : ∀ a ∈ as, a.isCallRead = false)
    (h : run s (.callRead dst :: as) = some (s1, evs)) :
    ∀ d n e, Event.readRet d n e ∈ evs →
      1 ≤ n ∧ n ≤ dst.length ∧ e = none ∧ d.length = dst.length := by
  obtain ⟨sm, e1, e2, hs, hrun, rfl⟩ := run_cons s s1 _ as evs h
  have hl : readLoop 2 s dst = some (sm, e1) := by
    simpa [step, pipeReader.Read, pipeWriter.Write, hidle] using hs
  obtain ⟨hi, he⟩ := readLoop_pending s sm dst e1 hM hl
  have h2 := run_pending dst.length hM as sm s1 e2 hi hno hrun
  intro d n e hmem
  rcases List.mem_append.mp hmem with hm | hm
  · obtain ⟨a1, a2, a3, a4⟩ := he d n e hm
    exact ⟨a2, a3, a4, a1⟩
  · obtain ⟨a1, a2, a3, a4⟩ := h2 d n e hm
    exact ⟨a2, a3, a4, a1⟩

theorem read_never_returns_zero_witness :
    run pipe [.callRead [0, 0], .callWrite [1, 2, 3], .resumeReader] =
      some ({ buf := [3], writer := .idle, reader := .idle },
        [.recv .provided, .append [1, 2, 3], .send .provided, .writeRet 3 none,
          .readRet [1, 2] 2 none]) ∧
    ∀ d n e, Event.readRet d n e ∈
        [Event.recv .provided, .append [1, 2, 3], .send .provided, .writeRet 3 none,
          .readRet [1, 2] 2 none] →
      1 ≤ n ∧ n ≤ [(0 : Byte), 0].length ∧ e = none ∧ d.length = [(0 : Byte), 0].length :=
  ⟨by decide,
    read_never_returns_zero pipe [0, 0] [.callWrite [1, 2, 3], .resumeReader]
      { buf := [3], writer := .idle, reader := .idle } _ rfl (by decide) (by decide)
      (by decide)⟩

/-! ## What a `Write` that starts at or below the threshold does -/


theorem readLoop_appended (p : List Byte) (s s1 : Pipe) (dst : List Byte) (evs : List Event)
    (hinv : WriteAppended p s.writer) (h : readLoop 2 s dst = some (s1, evs)) :
    WriteAppended p s1.writer ∧ evs.filter Event.isAppend = [] ∧ Event.recv .consumed ∉ evs ∧
      ∀ n e, Event.writeRet n e ∉ evs := by
  rcases readLoop_cases s s1 dst evs h with
    ⟨_, q, hq, rfl, rfl⟩ | ⟨_, _, rfl, rfl⟩ | ⟨_, _, rfl, rfl⟩ | ⟨_, q, hq, rfl, rfl⟩ |
    ⟨_, _, rfl, rfl⟩
  · rw [hq] at hinv
    simpa [WriteAppended, Event.isAppend] using hinv
  · simpa [Event.isAppend] using hinv
  · simpa [Event.isAppend] using hinv
  · rw [hq] at hinv
    simp [WriteAppended] at hinv
  · simpa [Event.isAppend] using hinv

theorem step_appended (p : List Byte) (s s1 : Pipe) (a : Action) (evs : List Event)
    (hinv : WriteAppended p s.writer) (ha : a.isCallWrite = false)
    (h : step s a = some (s1, evs)) :
    WriteAppended p s1.writer ∧ evs.filter Event.isAppend = [] ∧ Event.recv .consumed ∉ evs ∧
      ∀ n e, Event.writeRet n e ∈ evs → n = p.length ∧ e = none := by
  rcases step_cases s s1 a evs h with
    ⟨dst, hc, hl⟩ | ⟨dst, n, rfl, hr, rfl, rfl⟩ | ⟨q, hc, hl⟩ | ⟨q, rfl, hw, rfl, rfl⟩ |
    ⟨rfl, rfl, rfl⟩ | ⟨rfl, rfl, rfl⟩
  · obtain ⟨h1, h2, h3, h4⟩ := readLoop_appended p s s1 dst evs hinv hl
    exact ⟨h1, h2, h3, fun n e hmem => absurd hmem (h4 n e)⟩
  · simpa [Event.isAppend] using hinv
  · rcases hc with ⟨rfl, _⟩ | ⟨rfl, hw⟩
    · simp [Action.isCallWrite] at ha
    · rw [hw] at hinv
      simp [WriteAppended] at hinv
  · rw [hw] at hinv
    simp only [WriteAppended] at hinv
    subst hinv
    simp [WriteAppended, Event.isAppend]
  · simpa [Event.isAppend] using hinv
  · simpa [Event.isAppend] using hinv

theorem run_appended (p : List Byte) (as : List Action) (s s1 : Pipe) (evs : List Event)
    (hinv : WriteAppended p s.writer) (hno : ∀ a ∈ as, a.isCallWrite = false)
    (h : run s as = some (s1, evs)) :
    evs.filter Event.isAppend = [] ∧ Event.recv .consumed ∉ evs ∧
      ∀ n e, Event.writeRet n e ∈ evs → n = p.length ∧ e = none := by
  induction as generalizing s evs with
  | nil =>
    simp [run] at h
    obtain ⟨rfl, rfl⟩ := h
    simp
  | cons a as ih =>
    obtain ⟨sm, e1, e2, hs, hrun, rfl⟩ := run_cons s s1 a as evs h
    obtain ⟨hi, ha1, ha2, ha3⟩ := step_appended p s sm a e1 hinv (hno a (by simp)) hs
    obtain ⟨hb1, hb2, hb3⟩ := ih sm e2 hi (fun b hb => hno b (by simp [hb])) hrun
    refine ⟨by simp [List.filter_append, ha1, hb1], ?_, ?_⟩
    · simp [List.mem_append, ha2, hb2]
    · intro n e hmem
      rcases List.mem_append.mp hmem with hm | hm
      · exact ha3 n e hm
      · exact hb3 n e hm

theorem writeLoop_low (s s1 : Pipe) (p : List Byte) (evs : List Event)
    (hlen : s.buf.length ≤ pipeBufSize) (h : writeLoop 2 s p = some (s1, evs)) :
    s1.buf = s.buf ++ p ∧ WriteAppended p s1.writer ∧ evs.filter Event.isAppend = [.append p] ∧
      Event.recv .consumed ∉ evs ∧
      (∀ n e, Event.writeRet n e ∈ evs → n = p.length ∧ e = none) ∧
      ((s.buf ≠ [] ∨ ∃ d, s.reader = .recvProvided d) →
        s1.writer = .idle ∧ Event.writeRet p.length none ∈ evs) ∧
      (s.buf = [] → (∀ d, s.reader ≠ .recvProvided d) →
        s1.writer = .sendProvided p ∧ evs = [.append p, .send .provided]) := by
  rcases writeLoop_cases s s1 p evs h with
    ⟨hgt, _⟩ | ⟨hgt, _⟩ | ⟨_, h0, rfl, rfl⟩ | ⟨h0, dst, hd, rfl, rfl⟩ | ⟨h0, hnd, rfl, rfl⟩
  · omega
  · omega
  · have hne : s.buf ≠ [] := fun hb => h0 (by simp [hb])
    simp [WriteAppended, Event.isAppend, hne]
  · have hb : s.buf = [] := List.length_eq_zero.mp h0
    simp [WriteAppended, Event.isAppend, hd]
  · have hb : s.buf = [] := List.length_eq_zero.mp h0
    simp [WriteAppended, Event.isAppend, hb, hnd]

theorem writeLoop_total (s : Pipe) (p : List Byte) : ∃ s1 evs, writeLoop 2 s p = some (s1, evs) := by
  rw [writeLoop_two]
  split
  · split <;> exact ⟨_, _, rfl⟩
  · exact ⟨_, _, rfl⟩

theorem readLoop_total (s : Pipe) (dst : List Byte) :
    ∃ s1 evs, readLoop 2 s dst = some (s1, evs) := by
  rw [readLoop_two]
  split
  · split <;> exact ⟨_, _, rfl⟩
  · exact ⟨_, _, rfl⟩

/-- C4. `Write` appends everything: in every pipe state with at most 4096 bytes buffered
in which the producer is not already inside `Write`, a call of `Write` with a payload of
any length `N` (also more than 4096) is a possible step that leaves the buffer equal to
the buffer before followed by the whole payload.  The call returns `(N, nil)` in that
step when the buffer was not empty or a `Read` is parked on `provided`; otherwise it is
parked at its send on `provided`.  Under every schedule that follows, the payload is
appended exactly once and whole, the call never waits on `consumed`, and a return of the
call is `(N, nil)`. -/
theorem write_appends_everything (s : Pipe) (p : List Byte) (hidle : s.writer = .idle)
    (hlen : s.buf.length ≤ pipeBufSize) :
    (∃ sm em, step s (.callWrite p) = some (sm, em) ∧ sm.buf = s.buf ++ p ∧
      ((s.buf ≠ [] ∨ ∃ d, s.reader = .recvProvided d) →
        sm.writer = .idle ∧ Event.writeRet p.length none ∈ em) ∧
      (s.buf = [] → (∀ d, s.reader ≠ .recvProvided d) →
        sm.writer = .sendProvided p ∧ em = [.append p, .send .provided])) ∧
    ∀ as s1 evs, (∀ a ∈ as, a.isCallWrite = false) →
      run s (.callWrite p :: as) = some (s1, evs) →
      evs.filter Event.isAppend = [.append p] ∧ Event.recv .consumed ∉ evs ∧
        ∀ n e, Event.writeRet n e ∈ evs → n = p.length ∧ e = none := by
  have hstep : step s (.callWrite p) = writeLoop 2 s p := by
    simp [step, pipeWriter.Write, hidle]
  constructor
  · obtain ⟨sm, em, hl⟩ := writeLoop_total s p
    obtain ⟨hb, _, _, _, _, hret, hpark⟩ := writeLoop_low s sm p em hlen hl
    exact ⟨sm, em, by rw [hstep, hl], hb, hret, hpark⟩
  · intro as s1 evs hno h
    obtain ⟨sm, e1, e2, hs, hrun, rfl⟩ := run_cons s s1 _ as evs h
    rw [hstep] at hs
    obtain ⟨_, hi, ha1, ha2, ha3, _, _⟩ := writeLoop_low s sm p e1 hlen hs
    obtain ⟨hb1, hb2, hb3⟩ := run_appended p as sm s1 e2 hi hno hrun
    refine ⟨by simp [List.filter_append, ha1, hb1], ?_, ?_⟩
    · simp [List.mem_append, ha2, hb2]
    · intro n e hmem
      rcases List.mem_append.mp hmem with hm | hm
      · exact ha3 n e hm
      · exact hb3 n e hm

theorem write_appends_everything_witness :
    (Pipe.mk [] .idle .idle).writer = .idle ∧
    (Pipe.mk [] .idle .idle).buf.length ≤ pipeBufSize ∧
    run { buf := [], writer := .idle, reader := .idle }
        [.callWrite [1, 2, 3], .callRead [0, 0], .callRead [0, 0], .callRead [0, 0],
          .resumeWriter] =
      some ({ buf := [], writer := .idle, reader := .recvProvided [0, 0] },
        [.append [1, 2, 3], .send .provided, .readRet [1, 2] 2 none, .readRet [3, 0] 1 none,
          .recv .provided, .recv .provided, .writeRet 3 none]) ∧
    ([Event.append [1, 2, 3], .send .provided, .readRet [1, 2] 2 none, .readRet [3, 0] 1 none,
          .recv .provided, .recv .provided, .writeRet 3 none].filter Event.isAppend =
        [.append [1, 2, 3]] ∧
      Event.recv .consumed ∉
        [Event.append [1, 2, 3], .send .provided, .readRet [1, 2] 2 none,
          .readRet [3, 0] 1 none, .recv .provided, .recv .provided, .writeRet 3 none] ∧
      ∀ n e, Event.writeRet n e ∈
          [Event.append [1, 2, 3], .send .provided, .readRet [1, 2] 2 none,
            .readRet [3, 0] 1 none, .recv .provided, .recv .provided, .writeRet 3 none] →
        n = [(1 : Byte), 2, 3].length ∧ e = none) :=
  ⟨rfl, by decide, by decide,
    (write_appends_everything { buf := [], writer := .idle, reader := .idle } [1, 2, 3] rfl
      (by decide)).2
      [.callRead [0, 0], .callRead [0, 0], .callRead [0, 0], .resumeWriter]
      { buf := [], writer := .idle, reader := .recvProvided [0, 0] } _ (by decide)
      (by decide)⟩

/-! ## What a `Read` of a non-empty buffer does -/

theorem writeLoop_drained (d : List Byte) (n : Nat) (s s1 : Pipe) (p : List Byte)
    (evs : List Event) (hinv : ReadDrained d n s.reader)
    (h : writeLoop 2 s p = some (s1, evs)) :
    ReadDrained d n s1.reader ∧ ∀ d1 m e, Event.readRet d1 m e ∉ evs := by
  rcases writeLoop_cases s s1 p evs h with
    ⟨_, dst, k, hd, rfl, rfl⟩ | ⟨_, _, rfl, rfl⟩ | ⟨_, _, rfl, rfl⟩ | ⟨_, dst, hd, rfl, rfl⟩ |
    ⟨_, _, rfl, rfl⟩
  · rw [hd] at hinv
    simpa [ReadDrained] using hinv
  · simpa using hinv
  · simpa using hinv
  · rw [hd] at hinv
    simp [ReadDrained] at hinv
  · simpa using hinv

theorem step_drained (d : List Byte) (n : Nat) (s s1 : Pipe) (a : Action) (evs : List Event)
    (hinv : ReadDrained d n s.reader) (ha : a.isCallRead = false)
    (h : step s a = some (s1, evs)) :
    ReadDrained d n s1.reader ∧
      ∀ d1 m e, Event.readRet d1 m e ∈ evs → d1 = d ∧ m = n ∧ e = none := by
  rcases step_cases s s1 a evs h with
    ⟨dst, hc, hl⟩ | ⟨dst, k, rfl, hr, rfl, rfl⟩ | ⟨p, hc, hl⟩ | ⟨p, rfl, hw, rfl, rfl⟩ |
    ⟨rfl, rfl, rfl⟩ | ⟨rfl, rfl, rfl⟩
  · rcases hc with ⟨rfl, _⟩ | ⟨rfl, hr⟩
    · simp [Action.isCallRead] at ha
    · rw [hr] at hinv
      simp [ReadDrained] at hinv
  · rw [hr] at hinv
    simp only [ReadDrained] at hinv
    obtain ⟨rfl, rfl⟩ := hinv
    simp [ReadDrained]
  · obtain ⟨h1, h2⟩ := writeLoop_drained d n s s1 p evs hinv hl
    exact ⟨h1, fun d1 m e hmem => absurd hmem (h2 d1 m e)⟩
  · simpa using hinv
  · simpa using hinv
  · simpa using hinv

theorem run_drained (d : List Byte) (n : Nat) (as : List Action) (s s1 : Pipe)
    (evs : List Event) (hinv : ReadDrained d n s.reader)
    (hno : ∀ a ∈ as, a.isCallRead = false) (h : run s as = some (s1, evs)) :
    ∀ d1 m e, Event.readRet d1 m e ∈ evs → d1 = d ∧ m = n ∧ e = none := by
  induction as generalizing s evs with
  | nil =>
    simp [run] at h
    obtain ⟨rfl, rfl⟩ := h
    simp
  | cons a as ih =>
    obtain ⟨sm, e1, e2, hs, hrun, rfl⟩ := run_cons s s1 a as evs h
    obtain ⟨hi, he⟩ := step_drained d n s sm a e1 hinv (hno a (by simp)) hs
    have h2 := ih sm e2 hi (fun b hb => hno b (by simp [hb])) hrun
    intro d1 m e hmem
    rcases List.mem_append.mp hmem with hm | hm
    · exact he d1 m e hm
    · exact h2 d1 m e hm

theorem readLoop_nonempty (s s1 : Pipe) (dst : List Byte) (evs : List Event)
    (hne : s.buf ≠ []) (h : readLoop 2 s dst = some (s1, evs)) :
    s1.buf = s.buf.drop (goCopy dst s.buf).1 ∧
      ReadDrained (goCopy dst s.buf).2 (goCopy dst s.buf).1 s1.reader ∧
      (∀ d1 m e, Event.readRet d1 m e ∈ evs →
        d1 = (goCopy dst s.buf).2 ∧ m = (goCopy dst s.buf).1 ∧ e = none) ∧
      ((s.buf.length ≤ pipeBufSize ∨ ∃ p, s.writer = .recvConsumed p) →
        s1.reader = .idle ∧
          Event.readRet (goCopy dst s.buf).2 (goCopy dst s.buf).1 none ∈ evs) ∧
      (pipeBufSize < s.buf.length → (∀ p, s.writer ≠ .recvConsumed p) →
        s1.reader = .sendConsumed (goCopy dst s.buf).2 (goCopy dst s.buf).1 ∧
          evs = [.send .consumed]) := by
  have hlen : s.buf.length ≠ 0 := by
    intro h0
    exact hne (List.length_eq_zero.mp h0)
  rcases readLoop_cases s s1 dst evs h with
    ⟨h0, _⟩ | ⟨h0, _⟩ | ⟨_, hle, rfl, rfl⟩ | ⟨hgt, p, hp, rfl, rfl⟩ | ⟨hgt, hnp, rfl, rfl⟩
  · exact absurd h0 hlen
  · exact absurd h0 hlen
  · refine ⟨rfl, by simp [ReadDrained], by simp, by simp, ?_⟩
    intro hgt
    omega
  · refine ⟨rfl, by simp [ReadDrained], by simp, by simp, ?_⟩
    intro _ hnp
    exact absurd hp (hnp p)
  · refine ⟨rfl, by simp [ReadDrained], by simp, ?_, by simp⟩
    rintro (hle | ⟨p, hp⟩)
    · omega
    · exact absurd hp (hnp p)

/-- C3, amended. `Read` drains exactly a front piece: in every pipe state with a
non-empty buffer `B` in which the consumer is not already inside `Read`, a call with a
destination of capacity `M` is a possible step that sets `n = min(M, len(B))`, makes the
first `n` bytes of the destination the first `n` bytes of `B`, leaves the destination
from index `n` on unchanged, and leaves `B` without its first `n` bytes in the buffer.
The call returns `(n, nil)` in that step when `len(B) ≤ 4096` or a `Write` is parked on
`consumed`; otherwise it is parked at its send on `consumed`.  Under every schedule that
follows, a return of the call is `(n, nil)` with the destination as described. -/
theorem read_drains_front (s : Pipe) (dst : List Byte) (hidle : s.reader = .idle)
    (hne : s.buf ≠ []) :
    (goCopy dst s.buf).1 = min dst.length s.buf.length ∧
    (goCopy dst s.buf).2.take (goCopy dst s.buf).1 = s.buf.take (goCopy dst s.buf).1 ∧
    (goCopy dst s.buf).2.drop (goCopy dst s.buf).1 = dst.drop (goCopy dst s.buf).1 ∧
    (goCopy dst s.buf).2.length = dst.length ∧
    (∃ sm em, step s (.callRead dst) = some (sm, em) ∧
      sm.buf = s.buf.drop (goCopy dst s.buf).1 ∧
      ((s.buf.length ≤ pipeBufSize ∨ ∃ p, s.writer = .recvConsumed p) →
        sm.reader = .idle ∧
          Event.readRet (goCopy dst s.buf).2 (goCopy dst s.buf).1 none ∈ em) ∧
      (pipeBufSize < s.buf.length → (∀ p, s.writer ≠ .recvConsumed p) →
        sm.reader = .sendConsumed (goCopy dst s.buf).2 (goCopy dst s.buf).1 ∧
          em = [.send .consumed])) ∧
    ∀ as s1 evs, (∀ a ∈ as, a.isCallRead = false) →
      run s (.callRead dst :: as) = some (s1, evs) →
      ∀ d m e, Event.readRet d m e ∈ evs →
        d = (goCopy dst s.buf).2 ∧ m = (goCopy dst s.buf).1 ∧ e = none := by
  have hstep : step s (.callRead dst) = readLoop 2 s dst := by
    simp [step, pipeReader.Read, hidle]
  refine ⟨goCopy_fst _ _, goCopy_take _ _, goCopy_drop _ _, goCopy_length _ _, ?_, ?_⟩
  · obtain ⟨sm, em, hl⟩ := readLoop_total s dst
    obtain ⟨hb, _, _, hret, hpark⟩ := readLoop_nonempty s sm dst em hne hl
    exact ⟨sm, em, by rw [hstep, hl], hb, hret, hpark⟩
  · intro as s1 evs hno h
    obtain ⟨sm, e1, e2, hs, hrun, rfl⟩ := run_cons s s1 _ as evs h
    rw [hstep] at hs
    obtain ⟨_, hi, he, _, _⟩ := readLoop_nonempty s sm dst e1 hne hs
    have h2 := run_drained _ _ as sm s1 e2 hi hno hrun
    intro d m e hmem
    rcases List.mem_append.mp hmem with hm | hm
    · exact he d m e hm
    · exact h2 d m e hm

theorem read_drains_front_witness :
    (Pipe.mk [1, 2, 3] .idle .idle).reader = .idle ∧
    (Pipe.mk [1, 2, 3] .idle .idle).buf ≠ [] ∧
    run { buf := [1, 2, 3], writer := .idle, reader := .idle } [.callRead [0, 0], .closeReader] =
      some ({ buf := [3], writer := .idle, reader := .idle },
        [.readRet [1, 2] 2 none, .closeRet .readEnd none]) ∧
    ∀ d m e, Event.readRet d m e ∈ [Event.readRet [1, 2] 2 none, .closeRet .readEnd none] →
      d = (goCopy [0, 0] [1, 2, 3]).2 ∧ m = (goCopy [0, 0] [1, 2, 3]).1 ∧ e = none :=
  ⟨rfl, by decide, by decide,
    (read_drains_front { buf := [1, 2, 3], writer := .idle, reader := .idle } [0, 0] rfl
      (by decide)).2.2.2.2.2 [.closeReader] { buf := [3], writer := .idle, reader := .idle }
      [.readRet [1, 2] 2 none, .closeRet .readEnd none] (by decide) (by decide)⟩

theorem readLoop_park_replicate (k : Nat) (x y : Byte) (w : WriterPC) (r : ReaderPC)
    (hk : pipeBufSize < k + 1) (hw : ∀ p, w ≠ .recvConsumed p) :
    readLoop 2 { buf := List.replicate (k + 1) x, writer := w, reader := r } [y] =
      some ({ buf := List.replicate k x, writer := w, reader := .sendConsumed [x] 1 },
        [.send .consumed]) := by
  have hgt : pipeBufSize <
      (Pipe.mk (List.replicate (k + 1) x) w r).buf.length := by
    simp only [List.length_replicate]
    exact hk
  rw [readLoop_two, if_neg (by simp), readBody_high_park _ _ hgt hw]
  simp [goCopy, List.replicate_succ]

/-- C3, as stated, fails: with 4097 bytes buffered and no `Write` parked on `consumed`,
`Read` into a one-byte destination copies one byte and parks at its send on `consumed`
(line 50) instead of returning, and the consumer cannot be resumed. -/
theorem read_parks_above_threshold :
    step { buf := List.replicate 4097 0, writer := .idle, reader := .idle } (.callRead [7]) =
      some ({ buf := List.replicate 4096 0, writer := .idle, reader := .sendConsumed [0] 1 },
        [.send .consumed]) ∧
    step { buf := List.replicate 4096 0, writer := .idle, reader := .sendConsumed [0] 1 }
      .resumeReader = none :=
  ⟨readLoop_park_replicate 4096 0 7 .idle .idle (by decide) (by simp), rfl⟩

/-! ## Backpressure -/

theorem readLoop_append_free (s s1 : Pipe) (dst : List Byte) (evs : List Event)
    (h : readLoop 2 s dst = some (s1, evs)) :
    evs.filter Event.isAppend = [] ∧ s1.buf.length ≤ s.buf.length := by
  rcases readLoop_cases s s1 dst evs h with
    ⟨_, q, hq, rfl, rfl⟩ | ⟨_, _, rfl, rfl⟩ | ⟨_, _, rfl, rfl⟩ | ⟨_, q, hq, rfl, rfl⟩ |
    ⟨_, _, rfl, rfl⟩ <;> simp [Event.isAppend]

theorem writeLoop_backpressure (s s1 : Pipe) (p : List Byte) (evs : List Event)
    (h : writeLoop 2 s p = some (s1, evs)) :
    (∀ q, Event.append q ∈ evs →
      s.buf.length ≤ pipeBufSize ∧ s1.buf = s.buf ++ q ∧
        s1.buf.length ≤ pipeBufSize + q.length) ∧
    (pipeBufSize < s.buf.length →
      s1.writer = .recvConsumed p ∧ s1.buf = s.buf ∧ evs.filter Event.isAppend = []) ∧
    s.buf.length ≤ s1.buf.length := by
  rcases writeLoop_cases s s1 p evs h with
    ⟨hgt, dst, k, hd, rfl, rfl⟩ | ⟨hgt, _, rfl, rfl⟩ | ⟨hle, _, rfl, rfl⟩ |
    ⟨h0, dst, hd, rfl, rfl⟩ | ⟨h0, _, rfl, rfl⟩
  · simp [Event.isAppend]
  · simp [Event.isAppend]
  · refine ⟨?_, fun hgt => absurd hgt (by omega), by simp⟩
    intro q hq
    simp at hq
    subst hq
    simp
    omega
  · refine ⟨?_, fun hgt => absurd hgt (by omega), by simp⟩
    intro q hq
    simp at hq
    subst hq
    simp
    omega
  · refine ⟨?_, fun hgt => absurd hgt (by omega), by simp⟩
    intro q hq
    simp at hq
    subst hq
    simp
    omega

/-- C5. Threshold backpressure: at every step of every execution, (1) an append by
`Write` happens only in a state with at most 4096 bytes buffered, it appends the whole
payload, and right after it at most `4096 + N` bytes are buffered; (2) a `Write` that
starts, or is woken up and checks again, while more than 4096 bytes are buffered, does
not append and is parked on `consumed` with the buffer untouched; (3) the only steps
that shorten the buffer are steps of `Read`. -/
theorem threshold_backpressure (s s1 : Pipe) (a : Action) (evs : List Event)
    (h : step s a = some (s1, evs)) :
    (∀ p, Event.append p ∈ evs →
      s.buf.length ≤ pipeBufSize ∧ s1.buf = s.buf ++ p ∧
        s1.buf.length ≤ pipeBufSize + p.length) ∧
    (pipeBufSize < s.buf.length →
      ∀ p, a = .callWrite p ∨ (a = .resumeWriter ∧ s.writer = .wokenConsumed p) →
        s1.writer = .recvConsumed p ∧ s1.buf = s.buf ∧ evs.filter Event.isAppend = []) ∧
    (s1.buf.length < s.buf.length → a.isCallRead = true ∨ a = .resumeReader) := by
  rcases step_cases s s1 a evs h with
    ⟨dst, hc, hl⟩ | ⟨dst, n, rfl, hr, rfl, rfl⟩ | ⟨q, hc, hl⟩ | ⟨q, rfl, hw, rfl, rfl⟩ |
    ⟨rfl, rfl, rfl⟩ | ⟨rfl, rfl, rfl⟩
  · obtain ⟨h1, _⟩ := readLoop_append_free s s1 dst evs hl
    refine ⟨?_, ?_, ?_⟩
    · intro p hp
      have : Event.append p ∈ evs.filter Event.isAppend := by
        simp [List.mem_filter, hp, Event.isAppend]
      rw [h1] at this
      simp at this
    · intro _ p hp
      rcases hc with ⟨rfl, _⟩ | ⟨rfl, _⟩ <;> simp at hp
    · intro _
      rcases hc with ⟨rfl, _⟩ | ⟨rfl, _⟩ <;> simp [Action.isCallRead]
  · simp [hr]
  · obtain ⟨h1, h2, h3⟩ := writeLoop_backpressure s s1 q evs hl
    refine ⟨h1, ?_, fun hlt => absurd hlt (by omega)⟩
    intro hgt p hp
    have hpq : p = q := by
      rcases hc with ⟨rfl, _⟩ | ⟨rfl, hw⟩
      · simp at hp
        exact hp.symm
      · rcases hp with hp | ⟨_, hp⟩
        · simp at hp
        · rw [hw] at hp
          simpa using hp.symm
    subst hpq
    exact h2 hgt
  · simp [hw]
  · simp
  · simp

theorem threshold_backpressure_witness :
    step { buf := [1], writer := .idle, reader := .idle } (.callWrite [2, 3]) =
      some ({ buf := [1, 2, 3], writer := .idle, reader := .idle },
        [.append [2, 3], .writeRet 2 none]) ∧
    ∀ p, Event.append p ∈ [Event.append [2, 3], .writeRet 2 none] →
      [(1 : Byte)].length ≤ pipeBufSize ∧ [(1 : Byte), 2, 3] = [1] ++ p ∧
        [(1 : Byte), 2, 3].length ≤ pipeBufSize + p.length :=
  ⟨by decide,
    (threshold_backpressure { buf := [1], writer := .idle, reader := .idle }
      { buf := [1, 2, 3], writer := .idle, reader := .idle } (.callWrite [2, 3])
      [.append [2, 3], .writeRet 2 none] (by decide)).1⟩

/-! ## When `Read` sends on `consumed` -/

theorem readLoop_sends (s s1 : Pipe) (dst : List Byte) (evs : List Event)
    (h : readLoop 2 s dst = some (s1, evs)) :
    (Event.send .consumed ∈ evs ↔ pipeBufSize < s.buf.length) ∧
      evs.count (.send .consumed) + sendsAhead s1.reader ≤ 1 := by
  rcases readLoop_cases s s1 dst evs h with
    ⟨h0, q, hq, rfl, rfl⟩ | ⟨h0, _, rfl, rfl⟩ | ⟨_, hle, rfl, rfl⟩ | ⟨hgt, q, hq, rfl, rfl⟩ |
    ⟨hgt, _, rfl, rfl⟩
  · simp [sendsAhead, h0]
  · simp [sendsAhead, h0]
  · simp [sendsAhead]
    omega
  · simp [sendsAhead, hgt]
  · simp [sendsAhead, hgt]

theorem writeLoop_sends (s s1 : Pipe) (p : List Byte) (evs : List Event)
    (h : writeLoop 2 s p = some (s1, evs)) :
    Event.send .consumed ∉ evs ∧ evs.count (.send .consumed) = 0 ∧
      sendsAhead s1.reader ≤ sendsAhead s.reader := by
  rcases writeLoop_cases s s1 p evs h with
    ⟨_, dst, k, hd, rfl, rfl⟩ | ⟨_, _, rfl, rfl⟩ | ⟨_, _, rfl, rfl⟩ | ⟨_, dst, hd, rfl, rfl⟩ |
    ⟨_, _, rfl, rfl⟩ <;> simp [sendsAhead, *]

theorem step_sends (s s1 : Pipe) (a : Action) (evs : List Event)
    (ha : a.isCallRead = false) (h : step s a = some (s1, evs)) :
    evs.count (.send .consumed) + sendsAhead s1.reader ≤ sendsAhead s.reader := by
  rcases step_cases s s1 a evs h with
    ⟨dst, hc, hl⟩ | ⟨dst, n, rfl, hr, rfl, rfl⟩ | ⟨q, hc, hl⟩ | ⟨q, rfl, hw, rfl, rfl⟩ |
    ⟨rfl, rfl, rfl⟩ | ⟨rfl, rfl, rfl⟩
  · rcases hc with ⟨rfl, _⟩ | ⟨rfl, hr⟩
    · simp [Action.isCallRead] at ha
    · have := (readLoop_sends s s1 dst evs hl).2
      simpa [hr, sendsAhead] using this
  · simp [sendsAhead]
  · obtain ⟨_, h2, h3⟩ := writeLoop_sends s s1 q evs hl
    omega
  · simp
  · simp
  · simp

theorem run_sends (as : List Action) (s s1 : Pipe) (evs : List Event)
    (hno : ∀ a ∈ as, a.isCallRead = false) (h : run s as = some (s1, evs)) :
    evs.count (.send .consumed) + sendsAhead s1.reader ≤ sendsAhead s.reader := by
  induction as generalizing s evs with
  | nil =>
    simp [run] at h
    obtain ⟨rfl, rfl⟩ := h
    simp
  | cons a as ih =>
    obtain ⟨sm, e1, e2, hs, hrun, rfl⟩ := run_cons s s1 a as evs h
    have h1 := step_sends s sm a e1 (hno a (by simp)) hs
    have h2 := ih sm e2 (fun b hb => hno b (by simp [hb])) hrun
    rw [List.count_append]
    omega

/-- C9, amended. A `Read` sends on `consumed` exactly when more than 4096 bytes are
buffered before its removal, whatever the length after the removal: a step executes the
send if and only if it is a step of `Read` that evaluates the loop condition of line 43
(the call itself, or the resumption after the receive on `provided`) in a state with
more than 4096 bytes buffered.  And at most once per call: under every schedule that
follows a `Read` call and holds no further `Read` call, the send is executed at most
once. -/
theorem space_available_when_high (s s1 : Pipe) (a : Action) (evs : List Event)
    (h : step s a = some (s1, evs)) :
    (Event.send .consumed ∈ evs ↔
      pipeBufSize < s.buf.length ∧
        (a.isCallRead = true ∨ (a = .resumeReader ∧ ∃ d, s.reader = .wokenProvided d))) ∧
    (∀ as s2 e2, a.isCallRead = true → (∀ b ∈ as, b.isCallRead = false) →
      run s1 as = some (s2, e2) → (evs ++ e2).count (.send .consumed) ≤ 1) := by
  rcases step_cases s s1 a evs h with
    ⟨dst, hc, hl⟩ | ⟨dst, n, rfl, hr, rfl, rfl⟩ | ⟨q, hc, hl⟩ | ⟨q, rfl, hw, rfl, rfl⟩ |
    ⟨rfl, rfl, rfl⟩ | ⟨rfl, rfl, rfl⟩
  · obtain ⟨h1, h2⟩ := readLoop_sends s s1 dst evs hl
    constructor
    · rw [h1]
      rcases hc with ⟨rfl, _⟩ | ⟨rfl, hr⟩ <;> simp [Action.isCallRead, *]
    · intro as s2 e2 _ hno hrun
      have h3 := run_sends as s1 s2 e2 hno hrun
      rw [List.count_append]
      omega
  · simp [Action.isCallRead, hr]
  · obtain ⟨h1, _, _⟩ := writeLoop_sends s s1 q evs hl
    rcases hc with ⟨rfl, _⟩ | ⟨rfl, _⟩ <;> simp [Action.isCallRead, h1]
  · simp [Action.isCallRead]
  · simp [Action.isCallRead]
  · simp [Action.isCallRead]

theorem space_available_when_high_witness :
    step { buf := [1, 2, 3], writer := .idle, reader := .idle } (.callRead [0]) =
      some ({ buf := [2, 3], writer := .idle, reader := .idle }, [.readRet [1] 1 none]) ∧
    (Event.send .consumed ∈ [Event.readRet [1] 1 none] ↔
      pipeBufSize < [(1 : Byte), 2, 3].length ∧
        ((Action.callRead [0]).isCallRead = true ∨
          (Action.callRead [0] = .resumeReader ∧
            ∃ d, (Pipe.mk [1, 2, 3] .idle .idle).reader = .wokenProvided d))) :=
  ⟨by decide,
    (space_available_when_high { buf := [1, 2, 3], writer := .idle, reader := .idle }
      { buf := [2, 3], writer := .idle, reader := .idle } (.callRead [0])
      [.readRet [1] 1 none] (by decide)).1⟩

/-- C9, as stated, fails: with 4098 bytes buffered, a `Read` into a one-byte destination
sends on `consumed` although the 4097 bytes left after the removal are still above the
threshold. -/
theorem space_available_without_crossing :
    step { buf := List.replicate 4098 0, writer := .idle, reader := .idle } (.callRead [7]) =
      some ({ buf := List.replicate 4097 0, writer := .idle, reader := .sendConsumed [0] 1 },
        [.send .consumed]) ∧
    pipeBufSize < (List.replicate 4097 (0 : Byte)).length :=
  ⟨readLoop_park_replicate 4097 0 7 .idle .idle (by decide) (by simp),
    by rw [List.length_replicate]; decide⟩

/-! ## `Write` with an empty payload -/

theorem readLoop_writeOf (p : List Byte) (s s1 : Pipe) (dst : List Byte) (evs : List Event)
    (hinv : WriteOf p s.writer) (h : readLoop 2 s dst = some (s1, evs)) :
    WriteOf p s1.writer ∧ (∀ n e, Event.writeRet n e ∉ evs) ∧ ∀ q, Event.append q ∉ evs := by
  rcases readLoop_cases s s1 dst evs h with
    ⟨_, q, hq, rfl, rfl⟩ | ⟨_, _, rfl, rfl⟩ | ⟨_, _, rfl, rfl⟩ | ⟨_, q, hq, rfl, rfl⟩ |
    ⟨_, _, rfl, rfl⟩
  · rw [hq] at hinv
    simpa [WriteOf] using hinv
  · simpa using hinv
  · simpa using hinv
  · rw [hq] at hinv
    simpa [WriteOf] using hinv
  · simpa using hinv

theorem writeLoop_writeOf (s s1 : Pipe) (p : List Byte) (evs : List Event)
    (h : writeLoop 2 s p = some (s1, evs)) :
    WriteOf p s1.writer ∧ (∀ n e, Event.writeRet n e ∈ evs → n = p.length ∧ e = none) ∧
      ∀ q, Event.append q ∈ evs → q = p := by
  rcases writeLoop_cases s s1 p evs h with
    ⟨_, dst, k, hd, rfl, rfl⟩ | ⟨_, _, rfl, rfl⟩ | ⟨_, _, rfl, rfl⟩ | ⟨_, dst, hd, rfl, rfl⟩ |
    ⟨_, _, rfl, rfl⟩ <;> simp [WriteOf]

theorem step_writeOf (p : List Byte) (s s1 : Pipe) (a : Action) (evs : List Event)
    (hinv : WriteOf p s.writer) (ha : a.isCallWrite = false)
    (h : step s a = some (s1, evs)) :
    WriteOf p s1.writer ∧ (∀ n e, Event.writeRet n e ∈ evs → n = p.length ∧ e = none) ∧
      ∀ q, Event.append q ∈ evs → q = p := by
  rcases step_cases s s1 a evs h with
    ⟨dst, hc, hl⟩ | ⟨dst, n, rfl, hr, rfl, rfl⟩ | ⟨q, hc, hl⟩ | ⟨q, rfl, hw, rfl, rfl⟩ |
    ⟨rfl, rfl, rfl⟩ | ⟨rfl, rfl, rfl⟩
  · obtain ⟨h1, h2, h3⟩ := readLoop_writeOf p s s1 dst evs hinv hl
    exact ⟨h1, fun n e hm => absurd hm (h2 n e), fun q hm => absurd hm (h3 q)⟩
  · simpa using hinv
  · rcases hc with ⟨rfl, _⟩ | ⟨rfl, hw⟩
    · simp [Action.isCallWrite] at ha
    · rw [hw] at hinv
      simp only [WriteOf] at hinv
      subst hinv
      exact writeLoop_writeOf s s1 q evs hl
  · rw [hw] at hinv
    simp only [WriteOf] at hinv
    subst hinv
    simp [WriteOf]
  · simpa using hinv
  · simpa using hinv

theorem run_writeOf (p : List Byte) (as : List Action) (s s1 : Pipe) (evs : List Event)
    (hinv : WriteOf p s.writer) (hno : ∀ a ∈ as, a.isCallWrite = false)
    (h : run s as = some (s1, evs)) :
    (∀ n e, Event.writeRet n e ∈ evs → n = p.length ∧ e = none) ∧
      ∀ q, Event.append q ∈ evs → q = p := by
  induction as generalizing s evs with
  | nil =>
    simp [run] at h
    obtain ⟨rfl, rfl⟩ := h
    simp
  | cons a as ih =>
    obtain ⟨sm, e1, e2, hs, hrun, rfl⟩ := run_cons s s1 a as evs h
    obtain ⟨hi, ha1, ha2⟩ := step_writeOf p s sm a e1 hinv (hno a (by simp)) hs
    obtain ⟨hb1, hb2⟩ := ih sm e2 hi (fun b hb => hno b (by simp [hb])) hrun
    constructor
    · intro n e hmem
      rcases List.mem_append.mp hmem with hm | hm
      · exact ha1 n e hm
      · exact hb1 n e hm
    · intro q hmem
      rcases List.mem_append.mp hmem with hm | hm
      · exact ha2 q hm
      · exact hb2 q hm

theorem writeLoop_empty_payload (s s1 : Pipe) (evs : List Event)
    (h : writeLoop 2 s [] = some (s1, evs)) :
    s1.buf = s.buf ∧
      (0 < s.buf.length → s.buf.length ≤ pipeBufSize →
        s1 = { s with writer := .idle } ∧ evs = [.append [], .writeRet 0 none]) := by
  rcases writeLoop_cases s s1 [] evs h with
    ⟨hgt, dst, k, hd, rfl, rfl⟩ | ⟨hgt, _, rfl, rfl⟩ | ⟨hle, _, rfl, rfl⟩ |
    ⟨h0, dst, hd, rfl, rfl⟩ | ⟨h0, _, rfl, rfl⟩
  · exact ⟨rfl, fun _ hle => absurd hgt (by omega)⟩
  · exact ⟨rfl, fun _ hle => absurd hgt (by omega)⟩
  · simp
  · exact ⟨by simp, fun hpos _ => absurd h0 (by omega)⟩
  · exact ⟨by simp, fun hpos _ => absurd h0 (by omega)⟩

/-- C6, amended. A `Write` with an empty payload, called in any pipe state in which the
producer is not already inside `Write`, is a possible step that leaves the buffer
unchanged; when between 1 and 4096 bytes are buffered it returns `(0, nil)` in that
step with no channel operation and no other change of state.  Under every schedule that
follows, whatever this call appends is empty and a return of the call is `(0, nil)`.
(Nothing is said about an empty buffer or more than 4096 buffered bytes: there the call
sends on `provided`, respectively waits on `consumed`, like any other `Write`.) -/
theorem empty_write_keeps_buffer (s : Pipe) (hidle : s.writer = .idle) :
    (∃ sm em, step s (.callWrite []) = some (sm, em) ∧ sm.buf = s.buf ∧
      (0 < s.buf.length → s.buf.length ≤ pipeBufSize →
        sm = s ∧ em = [.append [], .writeRet 0 none])) ∧
    ∀ as s1 evs, (∀ a ∈ as, a.isCallWrite = false) →
      run s (.callWrite [] :: as) = some (s1, evs) →
      (∀ n e, Event.writeRet n e ∈ evs → n = 0 ∧ e = none) ∧
        ∀ p, Event.append p ∈ evs → p = [] := by
  have hstep : step s (.callWrite []) = writeLoop 2 s [] := by
    simp [step, pipeWriter.Write, hidle]
  constructor
  · obtain ⟨sm, em, hl⟩ := writeLoop_total s []
    obtain ⟨hb, hq⟩ := writeLoop_empty_payload s sm em hl
    refine ⟨sm, em, by rw [hstep, hl], hb, ?_⟩
    intro hpos hle
    obtain ⟨h1, h2⟩ := hq hpos hle
    refine ⟨?_, h2⟩
    rw [h1, ← hidle]
  · intro as s1 evs hno h
    obtain ⟨sm, e1, e2, hs, hrun, rfl⟩ := run_cons s s1 _ as evs h
    rw [hstep] at hs
    obtain ⟨hi, ha1, ha2⟩ := writeLoop_writeOf s sm [] e1 hs
    obtain ⟨hb1, hb2⟩ := run_writeOf [] as sm s1 e2 hi hno hrun
    constructor
    · intro n e hmem
      rcases List.mem_append.mp hmem with hm | hm
      · simpa using ha1 n e hm
      · simpa using hb1 n e hm
    · intro q hmem
      rcases List.mem_append.mp hmem with hm | hm
      · exact ha2 q hm
      · exact hb2 q hm

theorem empty_write_keeps_buffer_witness :
    (Pipe.mk [5] .idle .idle).writer = .idle ∧
    run { buf := [5], writer := .idle, reader := .idle } [.callWrite [], .callRead [0, 0]] =
      some ({ buf := [], writer := .idle, reader := .idle },
        [.append [], .writeRet 0 none, .readRet [5, 0] 1 none]) ∧
    ((∀ n e, Event.writeRet n e ∈
        [Event.append [], .writeRet 0 none, .readRet [5, 0] 1 none] → n = 0 ∧ e = none) ∧
      ∀ p, Event.append p ∈
        [Event.append [], .writeRet 0 none, .readRet [5, 0] 1 none] → p = []) :=
  ⟨rfl, by decide,
    (empty_write_keeps_buffer { buf := [5], writer := .idle, reader := .idle } rfl).2
      [.callRead [0, 0]] { buf := [], writer := .idle, reader := .idle }
      [.append [], .writeRet 0 none, .readRet [5, 0] 1 none] (by decide) (by decide)⟩

theorem writeLoop_wait_replicate (k : Nat) (x : Byte) (p : List Byte) (w : WriterPC)
    (r : ReaderPC) (hk : pipeBufSize < k) (hr : ∀ d n, r ≠ .sendConsumed d n) :
    writeLoop 2 { buf := List.replicate k x, writer := w, reader := r } p =
      some ({ buf := List.replicate k x, writer := .recvConsumed p, reader := r },
        [.recv .consumed]) := by
  have hgt : (Pipe.mk (List.replicate k x) w r).buf.length > pipeBufSize := by
    simp only [List.length_replicate]
    exact hk
  rw [writeLoop_two, if_pos hgt]
  cases r <;> simp_all

/-- C6, as stated, fails: on an empty buffer with no `Read` parked, a `Write` of zero
bytes sends on `provided` and is parked there instead of returning; with 4097 bytes
buffered it waits on `consumed`. -/
theorem empty_write_signals_and_waits :
    step pipe (.callWrite []) =
      some ({ buf := [], writer := .sendProvided [], reader := .idle },
        [.append [], .send .provided]) ∧
    step { buf := List.replicate 4097 0, writer := .idle, reader := .idle } (.callWrite []) =
      some ({ buf := List.replicate 4097 0, writer := .recvConsumed [], reader := .idle },
        [.recv .consumed]) :=
  ⟨by decide, writeLoop_wait_replicate 4097 0 [] .idle .idle (by decide) (by simp)⟩

/-! ## The scenario of a 5000-byte `Write` -/

theorem goCopy_replicate_fill (m k : Nat) (x y : Byte) :
    goCopy (List.replicate m y) (List.replicate (m + k) x) = (m, List.replicate m x) := by
  simp [goCopy, List.take_replicate, List.drop_replicate]

theorem goCopy_replicate_short (m k : Nat) (x y : Byte) :
    goCopy (List.replicate (k + m) y) (List.replicate k x) =
      (k, List.replicate k x ++ List.replicate m y) := by
  simp [goCopy, List.take_replicate, List.drop_replicate]

theorem step_write_fresh (p : List Byte) :
    step pipe (.callWrite p) =
      some ({ buf := p, writer := .sendProvided p, reader := .idle },
        [.append p, .send .provided]) := by
  simp [step, pipe, pipeWriter.Write, writeLoop_two, writeBody]

theorem step_read_fresh (d : List Byte) :
    step pipe (.callRead d) =
      some ({ buf := [], writer := .idle, reader := .recvProvided d }, [.recv .provided]) := by
  simp [step, pipe, pipeReader.Read, readLoop_two]

theorem writeLoop_to_parked_reader (p d : List Byte) :
    writeLoop 2 { buf := [], writer := .idle, reader := .recvProvided d } p =
      some ({ buf := p, writer := .idle, reader := .wokenProvided d },
        [.append p, .send .provided, .writeRet p.length none]) := by
  simp [writeLoop_two, writeBody]

theorem readLoop_fill_park (m k : Nat) (x y : Byte) (w : WriterPC) (r : ReaderPC)
    (hk : pipeBufSize < m + k) (hw : ∀ p, w ≠ .recvConsumed p) :
    readLoop 2 { buf := List.replicate (m + k) x, writer := w, reader := r }
        (List.replicate m y) =
      some ({ buf := List.replicate k x, writer := w,
              reader := .sendConsumed (List.replicate m x) m }, [.send .consumed]) := by
  have hgt : pipeBufSize < (Pipe.mk (List.replicate (m + k) x) w r).buf.length := by
    simp only [List.length_replicate]
    exact hk
  have h0 : ¬ (Pipe.mk (List.replicate (m + k) x) w r).buf.length = 0 := by
    simp only [List.length_replicate]
    omega
  rw [readLoop_two, if_neg h0, readBody_high_park _ _ hgt hw]
  simp only [goCopy_replicate_fill, List.drop_replicate, Nat.add_sub_cancel_left]

theorem readLoop_fill_return (m k : Nat) (x y : Byte) (q : List Byte) (r : ReaderPC)
    (hk : pipeBufSize < m + k) :
    readLoop 2 { buf := List.replicate (m + k) x, writer := .recvConsumed q, reader := r }
        (List.replicate m y) =
      some ({ buf := List.replicate k x, writer := .wokenConsumed q, reader := .idle },
        [.send .consumed, .readRet (List.replicate m x) m none]) := by
  have hgt : pipeBufSize <
      (Pipe.mk (List.replicate (m + k) x) (.recvConsumed q) r).buf.length := by
    simp only [List.length_replicate]
    exact hk
  have h0 : ¬ (Pipe.mk (List.replicate (m + k) x) (.recvConsumed q) r).buf.length = 0 := by
    simp only [List.length_replicate]
    omega
  rw [readLoop_two, if_neg h0, readBody_high_recv _ _ q hgt rfl]
  simp only [goCopy_replicate_fill, List.drop_replicate, Nat.add_sub_cancel_left]

theorem readLoop_rest (m k : Nat) (x y : Byte) (w : WriterPC) (r : ReaderPC)
    (hk : k + 1 ≤ pipeBufSize) :
    readLoop 2 { buf := List.replicate (k + 1) x, writer := w, reader := r }
        (List.replicate (k + 1 + m) y) =
      some ({ buf := [], writer := w, reader := .idle },
        [.readRet (List.replicate (k + 1) x ++ List.replicate m y) (k + 1) none]) := by
  have hle : (Pipe.mk (List.replicate (k + 1) x) w r).buf.length ≤ pipeBufSize := by
    simp only [List.length_replicate]
    exact hk
  have h0 : ¬ (Pipe.mk (List.replicate (k + 1) x) w r).buf.length = 0 := by
    simp only [List.length_replicate]
    omega
  rw [readLoop_two, if_neg h0, readBody_low _ _ hle]
  simp only [goCopy_replicate_short, List.drop_replicate, Nat.sub_self, List.replicate_zero]

/-- C7, as stated, fails: on a fresh pipe with no `Read` parked, `Write` of 5000 bytes
appends them and is parked at its send on `provided` (line 72) instead of returning,
and the producer cannot be resumed. -/
theorem fresh_write_parks :
    step pipe (.callWrite (List.replicate 5000 0xAB)) =
      some ({ buf := List.replicate 5000 0xAB,
              writer := .sendProvided (List.replicate 5000 0xAB), reader := .idle },
        [.append (List.replicate 5000 0xAB), .send .provided]) ∧
    step { buf := List.replicate 5000 0xAB,
           writer := .sendProvided (List.replicate 5000 0xAB), reader := .idle }
      .resumeWriter = none :=
  ⟨step_write_fresh _, rfl⟩

theorem fresh_write_returns_length (p : List Byte) (as : List Action) (s1 : Pipe)
    (evs : List Event) (hno : ∀ a ∈ as, a.isCallWrite = false)
    (h : run pipe (.callWrite p :: as) = some (s1, evs)) :
    ∀ n e, Event.writeRet n e ∈ evs → n = p.length ∧ e = none := by
  obtain ⟨sm, e1, e2, hs, hrun, rfl⟩ := run_cons pipe s1 _ as evs h
  rw [step_write_fresh p] at hs
  simp only [Option.some.injEq, Prod.mk.injEq] at hs
  obtain ⟨rfl, rfl⟩ := hs
  obtain ⟨_, _, h3⟩ := run_appended p as _ s1 e2 (by simp [WriteAppended]) hno hrun
  intro n e hmem
  rcases List.mem_append.mp hmem with hm | hm
  · simp at hm
  · exact h3 n e hm

theorem fill_read_returns_count (m k : Nat) (x y : Byte) (w : WriterPC)
    (hk : pipeBufSize < m + k) (hw : ∀ p, w ≠ .recvConsumed p) :
    ∃ sm em,
      step { buf := List.replicate (m + k) x, writer := w, reader := .idle }
          (.callRead (List.replicate m y)) = some (sm, em) ∧
      sm.buf = List.replicate k x ∧ Event.recv .provided ∉ em ∧
      ∀ as s1 evs, (∀ a ∈ as, a.isCallRead = false) →
        run { buf := List.replicate (m + k) x, writer := w, reader := .idle }
            (.callRead (List.replicate m y) :: as) = some (s1, evs) →
        ∀ d n e, Event.readRet d n e ∈ evs → d = List.replicate m x ∧ n = m ∧ e = none := by
  have hs : step { buf := List.replicate (m + k) x, writer := w, reader := .idle }
      (.callRead (List.replicate m y)) = _ := readLoop_fill_park m k x y w .idle hk hw
  refine ⟨_, _, hs, rfl, by simp, ?_⟩
  intro as s1 evs hno h
  obtain ⟨sm, e1, e2, hs1, hrun, rfl⟩ := run_cons _ s1 _ as evs h
  rw [hs] at hs1
  simp only [Option.some.injEq, Prod.mk.injEq] at hs1
  obtain ⟨rfl, rfl⟩ := hs1
  have h2 := run_drained (List.replicate m x) m as _ s1 e2 (by simp [ReadDrained]) hno hrun
  intro d n e hmem
  rcases List.mem_append.mp hmem with hm | hm
  · simp at hm
  · exact h2 d n e hm

/-- C7, amended.  On a fresh pipe with no `Read` parked, `Write` of 5000 bytes `0xAB`
appends all of them without waiting on `consumed`, then waits at its send on `provided`
(line 72) instead of returning at once, and when it returns it returns `(5000, nil)`.
A `Read` into a 4096-byte buffer issued next copies 4096 bytes, all `0xAB`, without
waiting on `provided`, leaves the other 904 bytes buffered, and when it returns it
returns `(4096, nil)`.  A further `Read` into a 4096-byte buffer, issued once that `Read`
has returned, returns the remaining 904 bytes in its own step.  (Whether the first
`Read` returns is not part of the statement.) -/
theorem scenario_5000 :
    step pipe (.callWrite (List.replicate 5000 0xAB)) =
      some ({ buf := List.replicate 5000 0xAB,
              writer := .sendProvided (List.replicate 5000 0xAB), reader := .idle },
        [.append (List.replicate 5000 0xAB), .send .provided]) ∧
    (∀ as s1 evs, (∀ a ∈ as, a.isCallWrite = false) →
      run pipe (.callWrite (List.replicate 5000 0xAB) :: as) = some (s1, evs) →
      ∀ n e, Event.writeRet n e ∈ evs → n = 5000 ∧ e = none) ∧
    (∃ sm em,
      step { buf := List.replicate 5000 0xAB,
             writer := .sendProvided (List.replicate 5000 0xAB), reader := .idle }
          (.callRead (List.replicate 4096 0)) = some (sm, em) ∧
      sm.buf = List.replicate 904 0xAB ∧ Event.recv .provided ∉ em ∧
      ∀ as s1 evs, (∀ a ∈ as, a.isCallRead = false) →
        run { buf := List.replicate 5000 0xAB,
              writer := .sendProvided (List.replicate 5000 0xAB), reader := .idle }
            (.callRead (List.replicate 4096 0) :: as) = some (s1, evs) →
        ∀ d n e, Event.readRet d n e ∈ evs →
          d = List.replicate 4096 0xAB ∧ n = 4096 ∧ e = none) ∧
    ∀ w : WriterPC,
      step { buf := List.replicate 904 0xAB, writer := w, reader := .idle }
          (.callRead (List.replicate 4096 0)) =
        some ({ buf := [], writer := w, reader := .idle },
          [.readRet (List.replicate 904 0xAB ++ List.replicate 3192 0) 904 none]) := by
  refine ⟨step_write_fresh _, ?_, ?_, ?_⟩
  · intro as s1 evs hno h n e hmem
    have h1 := fresh_write_returns_length (List.replicate 5000 0xAB) as s1 evs hno h n e hmem
    rw [List.length_replicate] at h1
    exact h1
  · exact fill_read_returns_count 4096 904 0xAB 0 (.sendProvided (List.replicate 5000 0xAB))
      (by decide) (by intro _ hp; cases hp)
  · intro w
    exact readLoop_rest 3192 903 0xAB 0 w .idle (by decide)

/-! ## A `Read` that empties the buffer and is not released -/

theorem stuck_step (d : List Byte) (n : Nat) (s s1 : Pipe) (a : Action) (evs : List Event)
    (hr : s.reader = .sendConsumed d n)
    (hw : (s.writer = .idle ∧ s.buf = []) ∨ ∃ q, s.writer = .sendProvided q)
    (h : step s a = some (s1, evs)) :
    s1.reader = .sendConsumed d n ∧
      ((s1.writer = .idle ∧ s1.buf = []) ∨ ∃ q, s1.writer = .sendProvided q) ∧
      ∀ d1 m e, Event.readRet d1 m e ∉ evs := by
  rcases step_cases s s1 a evs h with
    ⟨dst, hc, hl⟩ | ⟨dst, k, rfl, hr1, rfl, rfl⟩ | ⟨p, hc, hl⟩ | ⟨p, rfl, hw1, rfl, rfl⟩ |
    ⟨rfl, rfl, rfl⟩ | ⟨rfl, rfl, rfl⟩
  · rcases hc with ⟨_, h1⟩ | ⟨_, h1⟩ <;> simp [hr] at h1
  · simp [hr] at hr1
  · rcases hc with ⟨rfl, hidle⟩ | ⟨rfl, hwoken⟩
    · have hb : s.buf = [] := by
        rcases hw with ⟨_, hb⟩ | ⟨q, hq⟩
        · exact hb
        · simp [hidle] at hq
      rcases writeLoop_cases s s1 p evs hl with
        ⟨hgt, _⟩ | ⟨hgt, _⟩ | ⟨_, h0, _⟩ | ⟨_, dst, hd, _⟩ | ⟨_, _, rfl, rfl⟩
      · simp [hb] at hgt
      · simp [hb] at hgt
      · simp [hb] at h0
      · simp [hr] at hd
      · exact ⟨hr, Or.inr ⟨p, rfl⟩, by simp⟩
    · rcases hw with ⟨hidle, _⟩ | ⟨q, hq⟩
      · simp [hidle] at hwoken
      · simp [hq] at hwoken
  · rcases hw with ⟨hidle, _⟩ | ⟨q, hq⟩
    · simp [hidle] at hw1
    · simp [hq] at hw1
  · exact ⟨hr, hw, by simp⟩
  · exact ⟨hr, hw, by simp⟩

theorem stuck_run (d : List Byte) (n : Nat) (as : List Action) (s s1 : Pipe)
    (evs : List Event) (hr : s.reader = .sendConsumed d n)
    (hw : (s.writer = .idle ∧ s.buf = []) ∨ ∃ q, s.writer = .sendProvided q)
    (h : run s as = some (s1, evs)) :
    ∀ d1 m e, Event.readRet d1 m e ∉ evs := by
  induction as generalizing s evs with
  | nil =>
    simp [run] at h
    obtain ⟨rfl, rfl⟩ := h
    simp
  | cons a as ih =>
    obtain ⟨sm, e1, e2, hs, hrun, rfl⟩ := run_cons s s1 a as evs h
    obtain ⟨hr1, hw1, he1⟩ := stuck_step d n s sm a e1 hr hw hs
    have h2 := ih sm e2 hr1 hw1 hrun
    intro d1 m e hmem
    rcases List.mem_append.mp hmem with hm | hm
    · exact he1 d1 m e hm
    · exact h2 d1 m e hm

/-- C1, as stated, fails.  First schedule: a `Read` with a 4097-byte destination waits on
the fresh pipe, a `Write` of 4097 bytes returns, and the `Read`, resumed, copies all
4097 bytes out, so the buffer is drained to empty; but it is parked at its send on
`consumed` (line 50) and under no later schedule does it return: the `Read`s have returned
no byte, the `Write`s have written 4097.  Second schedule: a second `Write`, of one
byte, is called before the `Read` is resumed and waits in the loop of line 66; the
`Read` returns the 4097 bytes and the buffer is empty, while the payloads of the two
`Write` calls are 4098 bytes. -/
theorem drained_but_not_delivered :
    run pipe [.callRead (List.replicate 4097 0), .callWrite (List.replicate 4097 7),
        .resumeReader] =
      some ({ buf := [], writer := .idle,
              reader := .sendConsumed (List.replicate 4097 7) 4097 },
        [.recv .provided, .append (List.replicate 4097 7), .send .provided,
          .writeRet 4097 none, .send .consumed]) ∧
    readBytes [.recv .provided, .append (List.replicate 4097 7), .send .provided,
        .writeRet 4097 none, .send .consumed] = [] ∧
    writtenPayloads [.callRead (List.replicate 4097 0), .callWrite (List.replicate 4097 7),
        .resumeReader] = List.replicate 4097 7 ∧
    (∀ as s1 evs,
      run { buf := [], writer := .idle,
            reader := .sendConsumed (List.replicate 4097 7) 4097 } as = some (s1, evs) →
      ∀ d n e, Event.readRet d n e ∉ evs) ∧
    run pipe [.callRead (List.replicate 4097 0), .callWrite (List.replicate 4097 7),
        .callWrite [9], .resumeReader] =
      some ({ buf := [], writer := .wokenConsumed [9], reader := .idle },
        [.recv .provided, .append (List.replicate 4097 7), .send .provided,
          .writeRet 4097 none, .recv .consumed, .send .consumed,
          .readRet (List.replicate 4097 7) 4097 none]) ∧
    readBytes [.recv .provided, .append (List.replicate 4097 7), .send .provided,
        .writeRet 4097 none, .recv .consumed, .send .consumed,
        .readRet (List.replicate 4097 7) 4097 none] = List.replicate 4097 7 ∧
    writtenPayloads [.callRead (List.replicate 4097 0), .callWrite (List.replicate 4097 7),
        .callWrite [9], .resumeReader] = List.replicate 4097 7 ++ [9] := by
  have h1 := step_read_fresh (List.replicate 4097 0)
  have h2 : step (Pipe.mk [] .idle (.recvProvided (List.replicate 4097 0)))
      (.callWrite (List.replicate 4097 7)) = _ :=
    writeLoop_to_parked_reader (List.replicate 4097 7) (List.replicate 4097 0)
  have h3 : step (Pipe.mk (List.replicate 4097 7) .idle
        (.wokenProvided (List.replicate 4097 0))) .resumeReader = _ :=
    readLoop_fill_park 4097 0 7 0 .idle (.wokenProvided (List.replicate 4097 0))
      (by decide) (by intro _ hp; cases hp)
  have h4 : step (Pipe.mk (List.replicate 4097 7) .idle
        (.wokenProvided (List.replicate 4097 0))) (.callWrite [9]) = _ :=
    writeLoop_wait_replicate 4097 7 [9] .idle (.wokenProvided (List.replicate 4097 0))
      (by decide) (by intro _ _ hd; cases hd)
  have h5 : step (Pipe.mk (List.replicate 4097 7) (.recvConsumed [9])
        (.wokenProvided (List.replicate 4097 0))) .resumeReader = _ :=
    readLoop_fill_return 4097 0 7 0 [9] (.wokenProvided (List.replicate 4097 0))
      (by decide)
  refine ⟨?_, ?_, ?_, ?_, ?_, ?_, ?_⟩
  · simp only [run, h1, h2, h3, List.length_replicate]
    rfl
  · simp only [readBytes]
  · simp only [writtenPayloads, List.append_nil]
  · intro as s1 evs h
    exact stuck_run _ _ as _ s1 evs rfl (Or.inl ⟨rfl, rfl⟩) h
  · simp only [run, h1, h2, h4, h5, List.length_replicate]
    rfl
  · simp only [readBytes, List.take_replicate, Nat.min_self, List.append_nil]
  · simp only [writtenPayloads, List.append_nil]

/-! ## `Close`, and `waveOutClose` -/

theorem step_no_closeRet (s s1 : Pipe) (a : Action) (evs : List Event)
    (ha : a.isClose = false) (h : step s a = some (s1, evs)) :
    evs.filter (fun e => !e.isCloseRet) = evs := by
  rw [List.filter_eq_self]
  rcases step_cases s s1 a evs h with
    ⟨dst, hc, hl⟩ | ⟨dst, n, rfl, hr, rfl, rfl⟩ | ⟨q, hc, hl⟩ | ⟨q, rfl, hw, rfl, rfl⟩ |
    ⟨rfl, rfl, rfl⟩ | ⟨rfl, rfl, rfl⟩
  · rcases readLoop_cases s s1 dst evs hl with
      ⟨_, q, hq, rfl, rfl⟩ | ⟨_, _, rfl, rfl⟩ | ⟨_, _, rfl, rfl⟩ | ⟨_, q, hq, rfl, rfl⟩ |
      ⟨_, _, rfl, rfl⟩ <;> simp [Event.isCloseRet]
  · simp [Event.isCloseRet]
  · rcases writeLoop_cases s s1 q evs hl with
      ⟨_, dst, k, hd, rfl, rfl⟩ | ⟨_, _, rfl, rfl⟩ | ⟨_, _, rfl, rfl⟩ |
      ⟨_, dst, hd, rfl, rfl⟩ | ⟨_, _, rfl, rfl⟩ <;> simp [Event.isCloseRet]
  · simp [Event.isCloseRet]
  · simp [Action.isClose] at ha
  · simp [Action.isClose] at ha

theorem run_cons_eq (s : Pipe) (a : Action) (as : List Action) :
    run s (a :: as) =
      (step s a).bind fun r1 => (run r1.1 as).map fun r2 => (r2.1, r1.2 ++ r2.2) := by
  simp only [run]
  cases step s a with
  | none => rfl
  | some r1 =>
    obtain ⟨sm, e1⟩ := r1
    cases h2 : run sm as <;> simp [h2]

/-- C8. `Close` is a no-op on both ends: in every pipe state, `pipeReader.Close` and
`pipeWriter.Close` are possible steps that return `nil`, leave the whole state (the
buffered bytes and both goroutines) as it is and execute no channel operation; and in
every schedule, from every state, striking out all `Close` calls, wherever and however
often they occur, changes neither whether the schedule can run, nor the final state, nor
any event other than the returns of the `Close` calls themselves. -/
theorem close_is_noop (s : Pipe) (as : List Action) :
    step s .closeReader = some (s, [.closeRet .readEnd none]) ∧
    step s .closeWriter = some (s, [.closeRet .writeEnd none]) ∧
    run s (as.filter fun a => !a.isClose) =
      (run s as).map fun r => (r.1, r.2.filter fun e => !e.isCloseRet) := by
  refine ⟨rfl, rfl, ?_⟩
  induction as generalizing s with
  | nil => simp [run]
  | cons a as ih =>
    by_cases hc : a.isClose = true
    · have hstep : step s a = some (s, [.closeRet (if a = .closeReader then .readEnd else .writeEnd) none]) := by
        cases a <;> simp [Action.isClose] at hc <;> simp [step, pipeReader.Close, pipeWriter.Close]
      rw [List.filter_cons_of_neg (by simp [hc]), ih s, run_cons_eq, hstep]
      cases h2 : run s as <;> simp [h2, Event.isCloseRet]
    · have hc1 : a.isClose = false := by simpa using hc
      rw [List.filter_cons_of_pos (by simp [hc1]), run_cons_eq, run_cons_eq]
      cases hs : step s a with
      | none => rfl
      | some r1 =>
        obtain ⟨sm, e1⟩ := r1
        have hf := step_no_closeRet s sm a e1 hc1 hs
        simp only [Option.some_bind]
        rw [ih sm]
        cases h2 : run sm as <;> simp [List.filter_append, hf]

/-- C10. Best-effort device close: for every result code `r` and errno `e` returned by
the native call, `waveOutClose` returns `nil` exactly when `e = 0` and `r` is
`MMSYSERR_NOERROR` (0) or `WAVEERR_STILLPLAYING` (33); otherwise it returns a
`winmmError` named `waveOutClose` that carries `e` (and no result code) when `e ≠ 0`,
and carries `r` (and no errno) when `e = 0`; its message shows the one it carries. -/
theorem waveOutClose_spec (r e : Nat) :
    (waveOutClose r e = none ↔ e = 0 ∧ (r = 0 ∨ r = 33)) ∧
    (e ≠ 0 → waveOutClose r e = some { fname := "waveOutClose", errno := e, mmresult := 0 } ∧
      (winmmError.mk "waveOutClose" e 0).Error =
        "winmm error at waveOutClose: Errno: " ++ toString e) ∧
    (e = 0 → r ≠ 0 → r ≠ 33 →
      waveOutClose r e = some { fname := "waveOutClose", errno := 0, mmresult := r } ∧
      (winmmError.mk "waveOutClose" 0 r).Error =
        "winmm error at waveOutClose: " ++ mmresult.String r) := by
  refine ⟨?_, ?_, ?_⟩
  · by_cases he : e = 0
    · by_cases h0 : r = 0
      · simp [waveOutClose, he, h0, mmsyserrNoerror]
      · by_cases h33 : r = 33
        · simp [waveOutClose, he, h33, waveerrStillplaying]
        · simp [waveOutClose, he, h0, h33, mmsyserrNoerror, waveerrStillplaying]
    · simp [waveOutClose, he]
  · intro he
    simp [waveOutClose, winmmError.Error, he, String.append_assoc]
  · intro he h0 h33
    simp [waveOutClose, winmmError.Error, he, h0, h33, mmsyserrNoerror, waveerrStillplaying,
      String.append_assoc]

theorem waveOutClose_spec_witness :
    (5 : Nat) ≠ 0 ∧ (5 : Nat) ≠ 33 ∧
      waveOutClose 5 0 = some { fname := "waveOutClose", errno := 0, mmresult := 5 } ∧
      (winmmError.mk "waveOutClose" 0 5).Error =
        "winmm error at waveOutClose: " ++ mmresult.String 5 :=
  ⟨by decide, by decide, (waveOutClose_spec 5 0).2.2 rfl (by decide) (by decide)⟩

end Oto
